import Mathlib

/-!
Shallow embedding of the powdr assembly→PIL converter (`pilgen/src/pil_converter.rs`)
and the monolithic linker (`linker/src/lib.rs`), together with theorems checking the
natural-language specification against this embedding.

Field elements are modelled as `ZMod goldilocksModulus` (the Goldilocks field used by
the repository's tests); machine integers that never overflow in the source are `Nat`.
Fallible code (Rust `panic!` / `assert!` / `unwrap`) is modelled with `Except String`;
Rust `Result<_, Vec<String>>` is the inner `Except (List String)`.
-/

set_option autoImplicit false

namespace Powdr

/-- Modulus of the Goldilocks field, the `FieldElement` instantiation used by the
repository's own tests (`GoldilocksField`). -/
def goldilocksModulus : Nat := 18446744069414584321

/-- Field elements. -/
abbrev F : Type := ZMod goldilocksModulus

/-- Modelled from the spec: the opaque field type supports a canonical
"small/negative" range test; a value is in the canonical lower half when its
canonical representative is at most `(p-1)/2` (the repository's Goldilocks test
rejects `(p-1)/2 + 1` as "negative or too large"). -/
def isInLowerHalf (x : F) : Bool := decide (x.val ≤ (goldilocksModulus - 1) / 2)

/-- First-match association list lookup (embedding of `BTreeMap`/`HashMap` reads). -/
def lookupA {κ α : Type} [DecidableEq κ] : List (κ × α) → κ → Option α
  | [], _ => none
  | (k', v) :: rest, k => if k' = k then some v else lookupA rest k

/-- Map over a list inside `Except`, failing on the first error
(embedding of Rust iterator chains whose body can panic). -/
def mapME {α β : Type} (f : α → Except String β) : List α → Except String (List β)
  | [] => .ok []
  | x :: xs =>
    match f x with
    | .error e => .error e
    | .ok y =>
      match mapME f xs with
      | .error e => .error e
      | .ok ys => .ok (y :: ys)

/-- Binary operators of the constraint-language expression AST (`ast::parsed::BinaryOperator`). -/
inductive BinOp where
  | add | sub | mul | pow | div | mod | binaryAnd | binaryXor | binaryOr | shiftLeft | shiftRight
deriving DecidableEq, Repr

/-- Unary operators (`ast::parsed::UnaryOperator`). -/
inductive UnOp where
  | plus | minus
deriving DecidableEq, Repr

/-- A reference to a column (`ast::parsed::PolynomialReference`). -/
structure PolyRef where
  namespc : Option String
  name : String
  index : Option Nat
  next : Bool
deriving DecidableEq, Repr

/-- The expression AST (`ast::parsed::Expression`). -/
inductive Expr where
  | num (n : F)
  | constant (name : String)
  | publicRef (name : String)
  | polyRef (r : PolyRef)
  | str (s : String)
  | tuple (items : List Expr)
  | functionCall (name : String) (args : List Expr)
  | freeInput (e : Expr)
  | matchExpr (scrutinee : Expr) (arms : List (Option Expr × Expr))
  | binaryOperation (l : Expr) (op : BinOp) (r : Expr)
  | unaryOperation (op : UnOp) (e : Expr)

/-- A selector together with a tuple of expressions (`ast::parsed::SelectedExpressions`). -/
structure SelectedExprs where
  selector : Option Expr
  expressions : List Expr

/-- Fixed-column array expressions (`ast::parsed::ArrayExpression`). -/
inductive ArrayExpr where
  | value (items : List Expr)
  | repeatedValue (items : List Expr)
  | concat (l r : ArrayExpr)

/-- Definition attached to a column (`ast::parsed::FunctionDefinition`). -/
inductive FunctionDef where
  | array (a : ArrayExpr)
  | query (params : List String) (body : Expr)

/-- Name of a declared polynomial (`ast::parsed::PolynomialName`). -/
structure PolyName where
  name : String
  arraySize : Option Expr

/-- PIL statements (`ast::parsed::PilStatement` restricted to the constructors the
embedded code produces). `raw` models the output of the external `parse_pil_statement`
helper (the `analysis` crate is not part of the embedded sources): the linker passes
the parsed statement through verbatim, so we keep its source text. -/
inductive Stmt where
  | namespaceDecl (start : Nat) (name : String) (degree : Expr)
  | polynomialConstantDefinition (start : Nat) (name : String) (defn : FunctionDef)
  | polynomialCommitDeclaration (start : Nat) (names : List PolyName) (defn : Option FunctionDef)
  | polynomialIdentity (start : Nat) (e : Expr)
  | plookupIdentity (start : Nat) (left right : SelectedExprs)
  | permutationIdentity (start : Nat) (left right : SelectedExprs)
  | raw (s : String)

/-- Decides whether a statement is a permutation identity. -/
def Stmt.isPermutationId : Stmt → Bool
  | .permutationIdentity _ _ _ => true
  | _ => false

/-- Embedding of `build::direct_reference`. -/
def directRef (name : String) : Expr :=
  .polyRef { namespc := none, name := name, index := none, next := false }

/-- Embedding of `build::namespaced_reference`. -/
def namespacedReference (ns name : String) : Expr :=
  .polyRef { namespc := some ns, name := name, index := none, next := false }

/-- Embedding of `next_reference`. -/
def nextReference (name : String) : Expr :=
  .polyRef { namespc := none, name := name, index := none, next := true }

/-- Embedding of `build_binary_expr`. -/
def buildBinaryExpr (l : Expr) (op : BinOp) (r : Expr) : Expr := .binaryOperation l op r

/-- Embedding of `build_mul`. -/
def buildMul (l r : Expr) : Expr := buildBinaryExpr l .mul r

/-- Embedding of `build_sub`. -/
def buildSub (l r : Expr) : Expr := buildBinaryExpr l .sub r

/-- Embedding of `build_add`. -/
def buildAdd (l r : Expr) : Expr := buildBinaryExpr l .add r

/-- Embedding of `build_unary_expr`. -/
def buildUnaryExpr (op : UnOp) (e : Expr) : Expr := .unaryOperation op e

/-- Embedding of `build_number`. -/
def buildNumber (n : F) : Expr := .num n

/-! ## Linker data model (`ast/src/object/mod.rs`, version consumed by `linker/src/lib.rs`) -/

/-- Hierarchical machine path (`object::Location`). -/
structure Location where
  limbs : List String
deriving DecidableEq, Repr

/-- Modelled from the spec: the display code for `Location` is not part of the
embedded sources; the spec shows dot-joined hierarchical paths ("main", "main.sub"). -/
def locToString (l : Location) : String := String.intercalate "." l.limbs

/-- A typed parameter of a link (`ast::asm::Param`). -/
structure LinkerParam where
  name : String
  ty : Option String
deriving DecidableEq, Repr

/-- A list of parameters (`ast::asm::ParamList`). -/
structure ParamList where
  params : List LinkerParam
deriving DecidableEq, Repr

/-- Input/output parameter lists (`ast::asm::Params`). -/
structure LinkerParams where
  inputs : ParamList
  outputs : Option ParamList
deriving DecidableEq, Repr

/-- The instruction at a link's source: its flag column and its parameters. -/
structure LinkerInstr where
  flag : String
  params : LinkerParams
deriving DecidableEq, Repr

/-- The link source (`object::LinkFrom`). -/
structure LinkFrom where
  instr : LinkerInstr
deriving DecidableEq, Repr

/-- A call-target machine descriptor (`object::Machine`). -/
structure LinkerMachine where
  location : Location
  latch : String
  function_id : String
deriving DecidableEq, Repr

/-- A callable entry point of a machine (`object::Function`). -/
structure LinkerFunction where
  name : String
  id : F
  params : LinkerParams
deriving DecidableEq, Repr

/-- The link target (`object::LinkTo`). -/
structure LinkTo where
  machine : LinkerMachine
  function : LinkerFunction
deriving DecidableEq, Repr

/-- A link between two machines (`object::Link`); `from` is a Lean keyword, so the
fields are called `from'` and `to'`. The `is_permutation` flag is declared on `Link` in
`ast/src/object/mod.rs`. -/
structure Link where
  from' : LinkFrom
  to' : LinkTo
  is_permutation : Bool
deriving DecidableEq, Repr

/-- One compiled machine (`object::Object`). -/
structure LinkerObject where
  degree : Option Nat
  pil : List Stmt
  links : List Link

/-- The graph of compiled machines (`object::PILGraph`); `objects` is a `BTreeMap`,
modelled as its association list of entries. -/
structure PILGraph where
  main : LinkerMachine
  entry_points : List LinkerFunction
  objects : List (Location × LinkerObject)

/-- A flat PIL file (`ast::parsed::PILFile`). -/
structure PILFile where
  statements : List Stmt

/-! ## The linker (`linker/src/lib.rs`) -/

/-- Embedding of `DEFAULT_DEGREE`. -/
def DEFAULT_DEGREE : Nat := 1024

/-- Embedding of `MAIN_FUNCTION_NAME`. -/
def MAIN_FUNCTION_NAME : String := "main"

/-- Parameters of an optional output list, flattened (`outputs.into_iter().flat_map(|o| o.params)`). -/
def outputsParams : Option ParamList → List LinkerParam
  | none => []
  | some l => l.params

/-- Processing of one outbound link inside `link`: builds the lhs and rhs tuples and
emits the identity. The `assert!(i.ty.is_none())` on lhs parameters is a panic,
modelled as an error. -/
def processLink (l : Link) : Except String Stmt :=
  match mapME
      (fun i => if i.ty.isNone then .ok (directRef i.name)
                else .error "assertion failed: i.ty.is_none()")
      (l.from'.instr.params.inputs.params ++ outputsParams l.from'.instr.params.outputs) with
  | .error e => .error e
  | .ok lhsArgs =>
    let lhs : SelectedExprs :=
      { selector := some (directRef l.from'.instr.flag)
        expressions := Expr.num l.to'.function.id :: lhsArgs }
    let params := l.to'.function.params
    let toNamespace := locToString l.to'.machine.location
    let rhs : SelectedExprs :=
      { selector := some (namespacedReference toNamespace l.to'.machine.latch)
        expressions := namespacedReference toNamespace l.to'.machine.function_id ::
          (params.inputs.params ++ outputsParams params.outputs).map
            (fun i => namespacedReference toNamespace i.name) }
    .ok (Stmt.plookupIdentity 0 lhs rhs)

/-- Per-object body of the `flat_map` in `link`: degree-mismatch errors recorded for
this object, and the pil statements it contributes (namespace, verbatim identities,
one identity per link, entry-point wiring for the root "main" location). -/
def processObject (mainDegree : Nat) (entryPoints : List LinkerFunction)
    (mainFunctionId : String) (loc : Location) (obj : LinkerObject) :
    Except String (List String × List Stmt) :=
  let errs : List String :=
    match obj.degree with
    | some degree =>
        if degree ≠ mainDegree then
          ["Machine " ++ locToString loc ++ " should have degree " ++
            toString mainDegree ++ ", found " ++ toString degree]
        else []
    | none => []
  match mapME processLink obj.links with
  | .error e => .error e
  | .ok linkStmts =>
    let mainWiring : List Stmt :=
      if loc.limbs = ["main"] then
        match entryPoints.find? (fun f => f.name = MAIN_FUNCTION_NAME) with
        | some mainFunction =>
            [Stmt.raw "col fixed _linker_first_step = [1] + [0]*",
             Stmt.raw ("_linker_first_step * (" ++ mainFunctionId ++ " - " ++
               toString mainFunction.id.val ++ ") = 0")]
        | none => []
      else []
    .ok (errs,
      Stmt.namespaceDecl 0 (locToString loc) (Expr.num (mainDegree : F)) ::
        obj.pil ++ linkStmts ++ mainWiring)

/-- Embedding of `link`: the outer `Except String` carries panics (the `unwrap` on the
main object and the lhs parameter assertion), the inner `Except (List String)` is the
function's `Result`. -/
def link (g : PILGraph) : Except String (Except (List String) PILFile) :=
  match lookupA g.objects g.main.location with
  | none => .error "called Option::unwrap on a None value"
  | some mainObject =>
    let mainDegree := mainObject.degree.getD DEFAULT_DEGREE
    match mapME
        (fun lo => processObject mainDegree g.entry_points g.main.function_id lo.1 lo.2)
        g.objects with
    | .error e => .error e
    | .ok results =>
      let errors := (results.map Prod.fst).flatten
      let pil := (results.map Prod.snd).flatten
      .ok (if errors ≠ [] then .error errors else .ok ⟨pil⟩)

/-! ## Lemmas about the linker -/

theorem mapME_ok_mem {α β : Type} {f : α → Except String β} :
    ∀ {xs : List α} {ys : List β}, mapME f xs = .ok ys →
      ∀ {x : α}, x ∈ xs → ∃ y, f x = .ok y ∧ y ∈ ys := by
  intro xs
  induction xs with
  | nil => intro ys _ x hx; cases hx
  | cons a as ih =>
    intro ys h x hx
    simp only [mapME] at h
    cases hfa : f a with
    | error e => rw [hfa] at h; cases h
    | ok y =>
      rw [hfa] at h
      cases hrest : mapME f as with
      | error e => rw [hrest] at h; cases h
      | ok ys' =>
        rw [hrest] at h
        cases h
        cases hx with
        | head => exact ⟨y, hfa, List.mem_cons_self _ _⟩
        | tail _ hx' =>
          obtain ⟨y', hy', hmem⟩ := ih hrest hx'
          exact ⟨y', hy', List.mem_cons_of_mem _ hmem⟩

theorem mapME_ifTyNone {msg : String} :
    ∀ {ps : List LinkerParam} {es : List Expr},
      mapME (fun i => if i.ty.isNone then .ok (directRef i.name) else .error msg) ps = .ok es →
      es = ps.map (fun p => directRef p.name) := by
  intro ps
  induction ps with
  | nil => intro es h; cases h; rfl
  | cons p ps ih =>
    intro es h
    simp only [mapME] at h
    cases hty : p.ty.isNone with
    | false => rw [hty] at h; simp at h
    | true =>
      rw [hty] at h
      simp only [if_true] at h
      cases hrest : mapME (fun i => if i.ty.isNone then .ok (directRef i.name) else .error msg) ps with
      | error e => rw [hrest] at h; cases h
      | ok es' =>
        rw [hrest] at h
        cases h
        simp [ih hrest]

theorem processLink_ok {l : Link} {s : Stmt} (h : processLink l = .ok s) :
    s = Stmt.plookupIdentity 0
      { selector := some (directRef l.from'.instr.flag)
        expressions := Expr.num l.to'.function.id ::
          (l.from'.instr.params.inputs.params ++ outputsParams l.from'.instr.params.outputs).map
            (fun p => directRef p.name) }
      { selector := some (namespacedReference (locToString l.to'.machine.location) l.to'.machine.latch)
        expressions := namespacedReference (locToString l.to'.machine.location) l.to'.machine.function_id ::
          (l.to'.function.params.inputs.params ++ outputsParams l.to'.function.params.outputs).map
            (fun p => namespacedReference (locToString l.to'.machine.location) p.name) } := by
  unfold processLink at h
  cases hm : mapME
      (fun i => if i.ty.isNone then .ok (directRef i.name)
                else .error "assertion failed: i.ty.is_none()")
      (l.from'.instr.params.inputs.params ++ outputsParams l.from'.instr.params.outputs) with
  | error e => rw [hm] at h; cases h
  | ok args =>
    rw [hm] at h
    cases h
    rw [mapME_ifTyNone hm]

/-- Entry-point wiring statements appended for the root "main" location. -/
def mainWiringStmts (entryPoints : List LinkerFunction) (mainFunctionId : String)
    (loc : Location) : List Stmt :=
  if loc.limbs = ["main"] then
    match entryPoints.find? (fun f => f.name = MAIN_FUNCTION_NAME) with
    | some mainFunction =>
        [Stmt.raw "col fixed _linker_first_step = [1] + [0]*",
         Stmt.raw ("_linker_first_step * (" ++ mainFunctionId ++ " - " ++
           toString mainFunction.id.val ++ ") = 0")]
    | none => []
  else []

/-- Degree-mismatch error recorded for a single object, if any. -/
def degreeMismatchOf (D : Nat) (loc : Location) (obj : LinkerObject) : Option String :=
  match obj.degree with
  | some d =>
      if d ≠ D then
        some ("Machine " ++ locToString loc ++ " should have degree " ++
          toString D ++ ", found " ++ toString d)
      else none
  | none => none

/-- All degree-mismatch error strings of a graph, in object order: one for every
machine whose explicit degree differs from the resolved degree `D`. -/
def degreeMismatchErrors (objects : List (Location × LinkerObject)) (D : Nat) : List String :=
  objects.filterMap (fun lo => degreeMismatchOf D lo.1 lo.2)

theorem processObject_ok {D : Nat} {ep : List LinkerFunction} {fid : String}
    {loc : Location} {obj : LinkerObject} {res : List String × List Stmt}
    (h : processObject D ep fid loc obj = .ok res) :
    res.1 = (degreeMismatchOf D loc obj).toList ∧
    ∃ linkStmts, mapME processLink obj.links = .ok linkStmts ∧
      res.2 = Stmt.namespaceDecl 0 (locToString loc) (Expr.num (D : F)) ::
        obj.pil ++ linkStmts ++ mainWiringStmts ep fid loc := by
  unfold processObject at h
  cases hls : mapME processLink obj.links with
  | error e => rw [hls] at h; cases h
  | ok ls =>
    rw [hls] at h
    cases h
    refine ⟨?_, ls, rfl, rfl⟩
    unfold degreeMismatchOf
    cases obj.degree with
    | none => rfl
    | some d =>
      by_cases hd : d = D
      · simp [hd]
      · simp [hd]

theorem link_errors_eq {D : Nat} {ep : List LinkerFunction} {fid : String} :
    ∀ {objects : List (Location × LinkerObject)} {results : List (List String × List Stmt)},
      mapME (fun lo => processObject D ep fid lo.1 lo.2) objects = .ok results →
      (results.map Prod.fst).flatten = degreeMismatchErrors objects D := by
  intro objects
  induction objects with
  | nil => intro results h; cases h; rfl
  | cons lo rest ih =>
    intro results h
    simp only [mapME] at h
    cases hpo : processObject D ep fid lo.1 lo.2 with
    | error e => rw [hpo] at h; cases h
    | ok y =>
      rw [hpo] at h
      cases hrest : mapME (fun lo => processObject D ep fid lo.1 lo.2) rest with
      | error e => rw [hrest] at h; cases h
      | ok ys =>
        rw [hrest] at h
        cases h
        have h1 := (processObject_ok hpo).1
        simp only [List.map_cons, List.flatten_cons, h1, ih hrest,
          degreeMismatchErrors, List.filterMap_cons]
        cases hdm : degreeMismatchOf D lo.1 lo.2 with
        | none => simp
        | some msg => simp

/-- C2: `link` resolves the target degree as the main machine's explicit degree or
1024 when unset, records one error string of exactly the documented form for every
machine whose explicit degree differs, collects them across the whole graph, and
returns the full error list instead of a `PILFile` precisely when at least one
mismatch exists. -/
theorem link_collects_all_degree_mismatches (g : PILGraph) (o : LinkerObject)
    (r : Except (List String) PILFile)
    (hmain : lookupA g.objects g.main.location = some o)
    (hrun : link g = .ok r) :
    (degreeMismatchErrors g.objects (o.degree.getD 1024) = [] →
      ∃ pf, r = Except.ok pf) ∧
    (degreeMismatchErrors g.objects (o.degree.getD 1024) ≠ [] →
      r = Except.error (degreeMismatchErrors g.objects (o.degree.getD 1024))) := by
  unfold link at hrun
  rw [hmain] at hrun
  simp only [DEFAULT_DEGREE] at hrun
  cases hres : mapME
      (fun lo => processObject (o.degree.getD 1024) g.entry_points g.main.function_id lo.1 lo.2)
      g.objects with
  | error e => rw [hres] at hrun; cases hrun
  | ok results =>
    rw [hres] at hrun
    cases hrun
    have herr := link_errors_eq hres
    rw [herr]
    constructor
    · intro hnil
      rw [if_neg (by simp [hnil])]
      exact ⟨_, rfl⟩
    · intro hne
      rw [if_pos hne]

/-- Concrete graph for the C2 witness: main has no explicit degree (default 1024),
"foo" explicitly declares 8. -/
def c2FooObj : LinkerObject := { degree := some 8, pil := [], links := [] }

/-- Main object of the C2 witness graph. -/
def c2MainObj : LinkerObject := { degree := none, pil := [], links := [] }

/-- The C2 witness graph. -/
def c2Graph : PILGraph :=
  { main := { location := ⟨["main"]⟩, latch := "latch", function_id := "function_id" }
    entry_points := []
    objects := [(⟨["foo"]⟩, c2FooObj), (⟨["main"]⟩, c2MainObj)] }

/-- Witness for C2 at a concrete graph: linking fails with exactly the expected
single message. -/
theorem link_collects_all_degree_mismatches_witness :
    ∃ r, link c2Graph = .ok r ∧
      r = Except.error ["Machine foo should have degree 1024, found 8"] := by
  refine ⟨_, rfl, ?_⟩
  have h := (link_collects_all_degree_mismatches c2Graph c2MainObj _ rfl rfl).2 (by decide)
  rw [h]
  exact congrArg Except.error (by decide)

/-- C1 (amended): for every outbound link of every object, a successful `link` run
emits a lookup identity — regardless of `is_permutation` — whose left selector is the
caller's instruction flag, whose right selector is the callee's namespaced latch, and
whose tuples begin with the callee operation id followed by the input and output
parameters. -/
theorem link_emits_lookup_for_every_link (g : PILGraph) (pf : PILFile)
    (loc : Location) (obj : LinkerObject) (l : Link)
    (hok : link g = .ok (.ok pf)) (hobj : (loc, obj) ∈ g.objects) (hl : l ∈ obj.links) :
    Stmt.plookupIdentity 0
      { selector := some (directRef l.from'.instr.flag)
        expressions := Expr.num l.to'.function.id ::
          (l.from'.instr.params.inputs.params ++ outputsParams l.from'.instr.params.outputs).map
            (fun p => directRef p.name) }
      { selector := some (namespacedReference (locToString l.to'.machine.location) l.to'.machine.latch)
        expressions := namespacedReference (locToString l.to'.machine.location) l.to'.machine.function_id ::
          (l.to'.function.params.inputs.params ++ outputsParams l.to'.function.params.outputs).map
            (fun p => namespacedReference (locToString l.to'.machine.location) p.name) }
      ∈ pf.statements := by
  unfold link at hok
  cases hmain : lookupA g.objects g.main.location with
  | none => rw [hmain] at hok; cases hok
  | some mainObject =>
    rw [hmain] at hok
    simp only [DEFAULT_DEGREE] at hok
    cases hres : mapME
        (fun lo => processObject (mainObject.degree.getD 1024) g.entry_points
          g.main.function_id lo.1 lo.2)
        g.objects with
    | error e => rw [hres] at hok; cases hok
    | ok results =>
      rw [hres] at hok
      have hok' : (Except.ok (if (results.map Prod.fst).flatten ≠ [] then
          Except.error (results.map Prod.fst).flatten
          else Except.ok (PILFile.mk ((results.map Prod.snd).flatten))) :
            Except String (Except (List String) PILFile)) =
          Except.ok (Except.ok pf) := hok
      have hpf : pf = ⟨(results.map Prod.snd).flatten⟩ := by
        by_cases hne : (results.map Prod.fst).flatten ≠ []
        · rw [if_pos hne] at hok'; cases hok'
        · rw [if_neg hne] at hok'; cases hok'; rfl
      obtain ⟨res, hpo, hresMem⟩ := mapME_ok_mem hres hobj
      obtain ⟨-, ls, hls, hstmts⟩ := processObject_ok hpo
      obtain ⟨s, hplink, hsMem⟩ := mapME_ok_mem hls hl
      have hshape := processLink_ok hplink
      rw [hpf]
      show _ ∈ (results.map Prod.snd).flatten
      rw [List.mem_flatten]
      refine ⟨res.2, List.mem_map_of_mem Prod.snd hresMem, ?_⟩
      rw [hstmts, ← hshape]
      exact List.mem_cons_of_mem _
        (List.mem_append_left _ (List.mem_append_right _ hsMem))

/-- Link used by the C1 counterexample and witness: `is_permutation` is `true`. -/
def c1Link : Link :=
  { from' := ⟨⟨"instr_call", ⟨⟨[⟨"x", none⟩]⟩, some ⟨[⟨"y", none⟩]⟩⟩⟩⟩
    to' := { machine := ⟨⟨["main", "sub"]⟩, "latch", "function_id"⟩
             function := ⟨"op", 7, ⟨⟨[⟨"a", none⟩]⟩, some ⟨[⟨"b", none⟩]⟩⟩⟩ }
    is_permutation := true }

/-- Main object of the C1 graph, carrying the single permutation-flagged link. -/
def c1MainObj : LinkerObject := { degree := none, pil := [], links := [c1Link] }

/-- Callee object of the C1 graph. -/
def c1SubObj : LinkerObject := { degree := none, pil := [], links := [] }

/-- The C1 graph: a main machine with one outbound link with `is_permutation = true`. -/
def c1Graph : PILGraph :=
  { main := { location := ⟨["main"]⟩, latch := "latch", function_id := "function_id" }
    entry_points := []
    objects := [(⟨["main"]⟩, c1MainObj), (⟨["main", "sub"]⟩, c1SubObj)] }

/-- The full statement list `link` produces for `c1Graph`. -/
def c1Pil : List Stmt :=
  [Stmt.namespaceDecl 0 "main" (Expr.num ((1024 : Nat) : F)),
   Stmt.plookupIdentity 0
     { selector := some (directRef "instr_call")
       expressions := [Expr.num 7, directRef "x", directRef "y"] }
     { selector := some (namespacedReference "main.sub" "latch")
       expressions := [namespacedReference "main.sub" "function_id",
         namespacedReference "main.sub" "a", namespacedReference "main.sub" "b"] },
   Stmt.namespaceDecl 0 "main.sub" (Expr.num ((1024 : Nat) : F))]

/-- C1 counterexample: on a link with `is_permutation = true` the linker still emits a
lookup identity and no permutation identity appears anywhere in the output, refuting
the claim that `is_permutation` selects a permutation identity. -/
theorem link_permutation_flag_ignored_cex :
    c1Link.is_permutation = true ∧
    link c1Graph = .ok (.ok ⟨c1Pil⟩) ∧
    (c1Pil.all fun s => !s.isPermutationId) = true :=
  ⟨rfl, rfl, rfl⟩

/-- Witness for the amended C1 theorem at the concrete graph `c1Graph`. -/
theorem link_emits_lookup_for_every_link_witness :
    Stmt.plookupIdentity 0
      { selector := some (directRef "instr_call")
        expressions := [Expr.num 7, directRef "x", directRef "y"] }
      { selector := some (namespacedReference "main.sub" "latch")
        expressions := [namespacedReference "main.sub" "function_id",
          namespacedReference "main.sub" "a", namespacedReference "main.sub" "b"] }
      ∈ c1Pil := by
  have h := link_emits_lookup_for_every_link c1Graph ⟨c1Pil⟩ ⟨["main"]⟩ c1MainObj c1Link
    rfl (List.mem_cons_self _ _) (List.mem_cons_self _ _)
  exact h

/-! ## Register & instruction model (`pilgen/src/pil_converter.rs`) -/

/-- Literal parameter kinds (`pilgen::LiteralKind`). -/
inductive LiteralKind where
  | label | signedConstant | unsignedConstant
deriving DecidableEq, Repr

/-- Instruction input classification (`pilgen::Input`). -/
inductive Input where
  | register (name : String)
  | literal (name : String) (kind : LiteralKind)
deriving DecidableEq, Repr

/-- Register flags of a declaration (`parser::RegisterFlag`). -/
inductive RegisterFlag where
  | isPC | isAssignment
deriving DecidableEq, Repr

/-- One machine register (`pil_converter::Register`). -/
structure Register where
  conditioned_updates : List (Expr × Expr)
  default_update : Option Expr
  is_assignment : Bool

/-- One instruction signature (`pil_converter::Instruction`). -/
structure Instruction where
  inputs : List Input
  outputs : List String

/-- Embedding of `Instruction::literal_arg_names`. -/
def Instruction.literal_arg_names (instr : Instruction) : List String :=
  instr.inputs.filterMap fun input =>
    match input with
    | .literal name _ => some name
    | _ => none

/-- One term of a code line's affine value (`pil_converter::AffineExpressionComponent`). -/
inductive AffineExpressionComponent where
  | register (name : String)
  | constant
  | freeInput (e : Expr)

/-- A literal argument of an instruction call (`pil_converter::InstructionLiteralArg`). -/
inductive InstructionLiteralArg where
  | labelRef (name : String)
  | number (n : F)

/-- One executable program row (`pil_converter::CodeLine`). The `BTreeMap` fields are
modelled as key-sorted association lists. -/
structure CodeLine where
  write_regs : List (String × List String)
  value : List (String × List (F × AffineExpressionComponent))
  label : Option String
  instructions : List (String × List InstructionLiteralArg)

/-- The all-empty code line (`CodeLine::default`). -/
def CodeLine.empty : CodeLine := ⟨[], [], none, []⟩

/-- Lexicographic order on character lists by code point, the order `BTreeMap`
iterates `String` keys in (kernel-computable, unlike `String.lt`'s instance). -/
def charListLt : List Char → List Char → Bool
  | _, [] => false
  | [], _ :: _ => true
  | c :: cs, d :: ds =>
    if c.toNat < d.toNat then true
    else if c.toNat = d.toNat then charListLt cs ds
    else false

/-- Lexicographic order on strings. -/
def strLt (a b : String) : Bool := charListLt a.data b.data

/-- Embedding of `BTreeMap::insert` on a key-sorted association list: replaces the
value of an existing key, otherwise inserts at the ordered position. -/
def insertA {α : Type} : List (String × α) → String → α → List (String × α)
  | [], k, v => [(k, v)]
  | (k', v') :: rest, k, v =>
    if strLt k k' then (k, v) :: (k', v') :: rest
    else if k = k' then (k, v) :: rest
    else (k', v') :: insertA rest k v

/-- Embedding of `BTreeMap::extend`: inserts every entry of the second map into the
first, later entries replacing earlier ones with the same key. -/
def extendA {α : Type} (m m' : List (String × α)) : List (String × α) :=
  m'.foldl (fun acc kv => insertA acc kv.1 kv.2) m

theorem charListLt_irrefl : ∀ l : List Char, charListLt l l = false
  | [] => rfl
  | c :: cs => by simp [charListLt, charListLt_irrefl cs]

theorem strLt_irrefl (a : String) : strLt a a = false := charListLt_irrefl a.data

theorem lookupA_insertA_self {α : Type} (m : List (String × α)) (k : String) (v : α) :
    lookupA (insertA m k v) k = some v := by
  induction m with
  | nil => simp [insertA, lookupA]
  | cons kv rest ih =>
    obtain ⟨k', v'⟩ := kv
    by_cases hlt : strLt k k' = true
    · simp [insertA, hlt, lookupA]
    · by_cases heq : k = k'
      · subst heq
        simp [insertA, strLt_irrefl, lookupA]
      · have hne : k' ≠ k := fun h => heq h.symm
        simp [insertA, hlt, heq, lookupA, hne, ih]

theorem lookupA_insertA_ne {α : Type} (m : List (String × α)) (k k' : String) (v : α)
    (hne : k' ≠ k) : lookupA (insertA m k v) k' = lookupA m k' := by
  have hne' : k ≠ k' := Ne.symm hne
  induction m with
  | nil => simp [insertA, lookupA, hne']
  | cons kv rest ih =>
    obtain ⟨k0, v0⟩ := kv
    by_cases hlt : strLt k k0 = true
    · simp [insertA, hlt, lookupA, hne']
    · by_cases heq : k = k0
      · subst heq
        simp [insertA, strLt_irrefl, lookupA, hne']
      · simp only [insertA, hlt, if_false, if_neg heq]
        by_cases h0 : k0 = k'
        · simp [lookupA, h0]
        · simp [lookupA, h0, ih]

/-- Embedding of `Register::update_expression`. The Rust `reduce(build_add)` over a
list known to be nonempty is written as the corresponding `foldl` over the tail. -/
def Register.update_expression (r : Register) : Option Expr :=
  match r.conditioned_updates, r.default_update with
  | [], update => update
  | c :: cs, none =>
      some ((cs.map fun cv => buildMul cv.1 cv.2).foldl buildAdd (buildMul c.1 c.2))
  | c :: cs, some d =>
      let updates := (cs.map fun cv => buildMul cv.1 cv.2).foldl buildAdd (buildMul c.1 c.2)
      let default_condition := buildSub (buildNumber 1) ((cs.map Prod.fst).foldl buildAdd c.1)
      some (buildAdd updates (buildMul default_condition d))

/-- Evaluation of the algebraic fragment of `Expr` the converter emits for register
updates: a valuation assigns a field value to every (column, next) pair. Constructors
outside that fragment evaluate to 0 (the synthesized updates never contain them). -/
def evalE (v : String → Bool → F) : Expr → F
  | .num n => n
  | .polyRef r => v r.name r.next
  | .binaryOperation l op r =>
    match op with
    | .add => evalE v l + evalE v r
    | .sub => evalE v l - evalE v r
    | .mul => evalE v l * evalE v r
    | _ => 0
  | .unaryOperation op e =>
    match op with
    | .plus => evalE v e
    | .minus => - evalE v e
  | _ => 0

theorem evalE_foldl_add (v : String → Bool → F) (es : List Expr) :
    ∀ e : Expr, evalE v (es.foldl buildAdd e) = evalE v e + (es.map (evalE v)).sum := by
  induction es with
  | nil => intro e; simp
  | cons x xs ih =>
    intro e
    rw [List.foldl_cons, ih]
    show evalE v (buildAdd e x) + _ = _
    rw [show evalE v (buildAdd e x) = evalE v e + evalE v x from rfl]
    simp [add_assoc]

theorem update_expression_some_none {r : Register} {c : Expr × Expr} {cs : List (Expr × Expr)}
    (hc : r.conditioned_updates = c :: cs) (hd : r.default_update = none) :
    ∃ u, r.update_expression = some u ∧ ∀ v,
      evalE v u = ((c :: cs).map fun cv => evalE v cv.1 * evalE v cv.2).sum := by
  refine ⟨_, by rw [Register.update_expression, hc, hd], ?_⟩
  intro v
  rw [evalE_foldl_add]
  rw [show evalE v (buildMul c.1 c.2) = evalE v c.1 * evalE v c.2 from rfl]
  simp [List.map_map, Function.comp]
  rfl

theorem update_expression_some_default {r : Register} {c : Expr × Expr}
    {cs : List (Expr × Expr)} {d : Expr}
    (hc : r.conditioned_updates = c :: cs) (hd : r.default_update = some d) :
    ∃ u, r.update_expression = some u ∧ ∀ v,
      evalE v u = ((c :: cs).map fun cv => evalE v cv.1 * evalE v cv.2).sum +
        (1 - ((c :: cs).map fun cv => evalE v cv.1).sum) * evalE v d := by
  refine ⟨_, by rw [Register.update_expression, hc, hd], ?_⟩
  intro v
  rw [show evalE v (buildAdd ((cs.map fun cv => buildMul cv.1 cv.2).foldl buildAdd
      (buildMul c.1 c.2)) (buildMul (buildSub (buildNumber 1)
      ((cs.map Prod.fst).foldl buildAdd c.1)) d)) =
    evalE v ((cs.map fun cv => buildMul cv.1 cv.2).foldl buildAdd (buildMul c.1 c.2)) +
      (evalE v (buildNumber 1) - evalE v ((cs.map Prod.fst).foldl buildAdd c.1)) * evalE v d
    from rfl]
  rw [evalE_foldl_add, evalE_foldl_add]
  rw [show evalE v (buildMul c.1 c.2) = evalE v c.1 * evalE v c.2 from rfl]
  rw [show evalE v (buildNumber 1) = 1 from rfl]
  simp [List.map_map, Function.comp]
  rfl


/-- C5: synthesis of the per-register update expression: no conditioned updates
yields the default (or none); conditioned updates without a default yield the sum of
flag-times-value products; conditioned updates with a default add `(1 - sum of flags)`
times the default. -/
theorem register_update_expression_synthesis (r : Register) :
    (r.conditioned_updates = [] → r.update_expression = r.default_update) ∧
    (∀ c cs, r.conditioned_updates = c :: cs → r.default_update = none →
      ∃ u, r.update_expression = some u ∧ ∀ v,
        evalE v u = ((c :: cs).map fun cv => evalE v cv.1 * evalE v cv.2).sum) ∧
    (∀ c cs d, r.conditioned_updates = c :: cs → r.default_update = some d →
      ∃ u, r.update_expression = some u ∧ ∀ v,
        evalE v u = ((c :: cs).map fun cv => evalE v cv.1 * evalE v cv.2).sum +
          (1 - ((c :: cs).map fun cv => evalE v cv.1).sum) * evalE v d) := by
  refine ⟨?_, ?_, ?_⟩
  · intro h
    rw [Register.update_expression, h]
  · intro c cs hc hd
    exact update_expression_some_none hc hd
  · intro c cs d hc hd
    exact update_expression_some_default hc hd

/-- Witness for C5: a register with zero conditioned updates and default `x`
synthesizes to exactly `x`. -/
theorem register_update_expression_synthesis_witness :
    Register.update_expression ⟨[], some (directRef "x"), false⟩ = some (directRef "x") :=
  (register_update_expression_synthesis ⟨[], some (directRef "x"), false⟩).1 rfl

/-! ## Converter state (`pil_converter::ASMPILConverter`) -/

/-- The converter state. `registers` and `instructions` are `BTreeMap`s, modelled as
key-sorted association lists maintained through `insertA`. -/
structure Converter where
  pil : List Stmt
  pc_name : Option String
  registers : List (String × Register)
  instructions : List (String × Instruction)
  code_lines : List CodeLine
  line_lookup : List (String × String)
  program_constant_names : List String

/-- The all-empty converter (`ASMPILConverter::default`). -/
def Converter.empty : Converter := ⟨[], none, [], [], [], [], []⟩

/-- Embedding of `witness_column`. -/
def witnessColumn (start : Nat) (name : String) (defn : Option FunctionDef) : Stmt :=
  .polynomialCommitDeclaration start [⟨name, none⟩] defn

/-- Embedding of `create_witness_fixed_pair`. -/
def createWitnessFixedPair (conv : Converter) (start : Nat) (name : String) : Converter :=
  { conv with
    pil := conv.pil ++ [witnessColumn start name none]
    line_lookup := conv.line_lookup ++ [(name, "p_" ++ name)]
    program_constant_names := conv.program_constant_names ++ ["p_" ++ name] }

/-- Embedding of `assignment_registers` (iteration in `BTreeMap` key order). -/
def Converter.assignment_registers (conv : Converter) : List String :=
  conv.registers.filterMap fun nr => if nr.2.is_assignment then some nr.1 else none

/-- Embedding of `regular_registers` (iteration in `BTreeMap` key order). -/
def Converter.regular_registers (conv : Converter) : List String :=
  conv.registers.filterMap fun nr => if nr.2.is_assignment then none else some nr.1

/-- Embedding of `handle_register_declaration`. -/
def handle_register_declaration (conv : Converter) (flags : Option RegisterFlag)
    (name : String) (start : Nat) : Except String Converter :=
  match flags with
  | some .isPC =>
    if conv.pc_name.isSome then .error "assertion failed: self.pc_name == None"
    else
      let conv := { conv with
        pc_name := some name
        line_lookup := conv.line_lookup ++ [(name, "p_line")] }
      .ok { conv with
        registers := insertA conv.registers name
          ⟨[], some (buildAdd (directRef name) (buildNumber 1)), false⟩
        pil := conv.pil ++ [witnessColumn start name none] }
  | some .isAssignment =>
      .ok { conv with
        registers := insertA conv.registers name ⟨[], none, true⟩
        pil := conv.pil ++ [witnessColumn start name none] }
  | none =>
      let assignment_regs := conv.assignment_registers
      let conv1 := { conv with pil := conv.pil ++
        [Stmt.polynomialIdentity start (buildMul (directRef "first_step") (directRef name))] }
      let conv2 := assignment_regs.foldl
        (fun c reg => createWitnessFixedPair c start ("reg_write_" ++ reg ++ "_" ++ name)) conv1
      let conditioned_updates := (nextReference "first_step", buildNumber 0) ::
        assignment_regs.map
          (fun reg => (directRef ("reg_write_" ++ reg ++ "_" ++ name), directRef reg))
      .ok { conv2 with
        registers := insertA conv2.registers name
          ⟨conditioned_updates, some (directRef name), false⟩
        pil := conv2.pil ++ [witnessColumn start name none] }

theorem createWitnessFixedPair_pil_mem {conv : Converter} {start : Nat} {name : String}
    {s : Stmt} (h : s ∈ conv.pil) : s ∈ (createWitnessFixedPair conv start name).pil :=
  List.mem_append_left _ h

theorem createWitnessFixedPair_registers (conv : Converter) (start : Nat) (name : String) :
    (createWitnessFixedPair conv start name).registers = conv.registers := rfl

theorem foldl_createWitnessFixedPair_pil_mem {start : Nat} {f : String → String} :
    ∀ (regs : List String) (conv : Converter) {s : Stmt}, s ∈ conv.pil →
      s ∈ (regs.foldl (fun c reg => createWitnessFixedPair c start (f reg)) conv).pil := by
  intro regs
  induction regs with
  | nil => intro conv s h; exact h
  | cons r rs ih =>
    intro conv s h
    exact ih _ (createWitnessFixedPair_pil_mem h)

theorem foldl_createWitnessFixedPair_registers (start : Nat) {f : String → String} :
    ∀ (regs : List String) (conv : Converter),
      (regs.foldl (fun c reg => createWitnessFixedPair c start (f reg)) conv).registers =
        conv.registers := by
  intro regs
  induction regs with
  | nil => intro conv; rfl
  | cons r rs ih => intro conv; exact ih _

/-- C9: declaring a regular register prepends the conditioned update
`(first_step', 0)` before the write-flag updates, so the synthesized next-row value is
zero on any row whose successor is the first step (all write flags inactive there),
`first_step'` enters the `(1 - sum of flags)` default condition, and this is in
addition to the explicit `first_step * reg = 0` identity. -/
theorem regular_register_declaration_forces_zero (conv conv' : Converter)
    (name : String) (start : Nat)
    (h : handle_register_declaration conv none name start = .ok conv') :
    lookupA conv'.registers name = some
      ⟨(nextReference "first_step", buildNumber 0) ::
        conv.assignment_registers.map
          (fun reg => (directRef ("reg_write_" ++ reg ++ "_" ++ name), directRef reg)),
        some (directRef name), false⟩ ∧
    Stmt.polynomialIdentity start (buildMul (directRef "first_step") (directRef name))
      ∈ conv'.pil ∧
    (∀ (v : String → Bool → F) u,
      Register.update_expression
        ⟨(nextReference "first_step", buildNumber 0) ::
          conv.assignment_registers.map
            (fun reg => (directRef ("reg_write_" ++ reg ++ "_" ++ name), directRef reg)),
          some (directRef name), false⟩ = some u →
      v "first_step" true = 1 →
      (∀ reg ∈ conv.assignment_registers, v ("reg_write_" ++ reg ++ "_" ++ name) false = 0) →
      evalE v u = 0) := by
  simp only [handle_register_declaration] at h
  cases h
  refine ⟨?_, ?_, ?_⟩
  · have hr := foldl_createWitnessFixedPair_registers start
      (f := fun reg => "reg_write_" ++ reg ++ "_" ++ name)
      conv.assignment_registers
      { conv with pil := conv.pil ++
        [Stmt.polynomialIdentity start (buildMul (directRef "first_step") (directRef name))] }
    rw [hr]
    exact lookupA_insertA_self _ _ _
  · apply List.mem_append_left
    apply foldl_createWitnessFixedPair_pil_mem
    exact List.mem_append_right _ (List.mem_cons_self _ _)
  · intro v u hu hfs hflags
    obtain ⟨u', hu', heval⟩ := update_expression_some_default (r :=
      ⟨(nextReference "first_step", buildNumber 0) ::
        conv.assignment_registers.map
          (fun reg => (directRef ("reg_write_" ++ reg ++ "_" ++ name), directRef reg)),
        some (directRef name), false⟩) rfl rfl
    rw [hu] at hu'
    cases hu'
    rw [heval v]
    have hsum1 : (((nextReference "first_step", buildNumber 0) ::
        conv.assignment_registers.map
          (fun reg => (directRef ("reg_write_" ++ reg ++ "_" ++ name), directRef reg))).map
        fun cv => evalE v cv.1 * evalE v cv.2).sum = 0 := by
      apply List.sum_eq_zero
      intro x hx
      rw [List.mem_map] at hx
      obtain ⟨cv, hcv, hxeq⟩ := hx
      cases hcv with
      | head =>
        rw [← hxeq]
        show evalE v (nextReference "first_step") * evalE v (buildNumber 0) = 0
        rw [show evalE v (buildNumber 0) = 0 from rfl, mul_zero]
      | tail _ hmem =>
        have hmem' : cv ∈ conv.assignment_registers.map
          (fun reg => (directRef ("reg_write_" ++ reg ++ "_" ++ name), directRef reg)) := hmem
        rw [List.mem_map] at hmem'
        obtain ⟨reg, hreg, hcveq⟩ := hmem' 
        rw [← hxeq, ← hcveq]
        show v ("reg_write_" ++ reg ++ "_" ++ name) false * v reg false = 0
        rw [hflags reg hreg, zero_mul]
    have hsum2 : (((nextReference "first_step", buildNumber 0) ::
        conv.assignment_registers.map
          (fun reg => (directRef ("reg_write_" ++ reg ++ "_" ++ name), directRef reg))).map
        fun cv => evalE v cv.1).sum = 1 := by
      rw [List.map_cons, List.sum_cons]
      rw [show evalE v (nextReference "first_step") = v "first_step" true from rfl, hfs]
      have : ((conv.assignment_registers.map
          (fun reg => (directRef ("reg_write_" ++ reg ++ "_" ++ name), directRef reg))).map
          fun cv => evalE v cv.1).sum = 0 := by
        apply List.sum_eq_zero
        intro x hx
        rw [List.map_map, List.mem_map] at hx
        obtain ⟨reg, hreg, hxeq⟩ := hx
        rw [← hxeq]
        show v ("reg_write_" ++ reg ++ "_" ++ name) false = 0
        exact hflags reg hreg
      rw [this, add_zero]
    rw [hsum1, hsum2]
    ring

/-- Concrete converter for the C9 witness: one assignment register "X" is already
declared. -/
def c9Conv : Converter :=
  { pil := [], pc_name := none, registers := [("X", ⟨[], none, true⟩)],
    instructions := [], code_lines := [], line_lookup := [], program_constant_names := [] }

/-- Witness for C9 at a concrete converter: declaring regular register "A" after
assignment register "X" produces exactly the expected register entry, and its update
evaluates to 0 when `first_step' = 1` and the write flag is 0. -/
theorem regular_register_declaration_forces_zero_witness :
    ∃ conv', handle_register_declaration c9Conv none "A" 0 = .ok conv' ∧
      lookupA conv'.registers "A" = some
        ⟨[(nextReference "first_step", buildNumber 0),
          (directRef "reg_write_X_A", directRef "X")], some (directRef "A"), false⟩ ∧
      (∀ u, Register.update_expression
          ⟨[(nextReference "first_step", buildNumber 0),
            (directRef "reg_write_X_A", directRef "X")], some (directRef "A"), false⟩ = some u →
        evalE (fun n next => if n = "first_step" then (if next then 1 else 0) else 0) u = 0) := by
  refine ⟨_, rfl, ?_, ?_⟩
  · have h := (regular_register_declaration_forces_zero c9Conv _ "A" 0 rfl).1
    simpa using h
  · intro u hu
    have h := (regular_register_declaration_forces_zero c9Conv _ "A" 0 rfl).2.2
      (fun n next => if n = "first_step" then (if next then 1 else 0) else 0) u
    apply h
    · simpa using hu
    · rfl
    · intro reg hreg
      have : reg = "X" := by simpa [c9Conv, Converter.assignment_registers] using hreg
      subst this
      rfl

/-- Embedding of the update-identity emission in `convert` (the `self.pil.extend`
over `self.registers` with the `first_step'` factor for the program counter). -/
def buildUpdateIdentities (registers : List (String × Register))
    (pcName : Option String) : List Stmt :=
  (registers.filterMap fun nr =>
    (nr.2.update_expression).map fun update =>
      (nr.1, if some nr.1 = pcName then
        buildMul (buildSub (buildNumber 1) (nextReference "first_step")) update
      else update)).map
    fun nu => Stmt.polynomialIdentity 0 (buildSub (nextReference nu.1) nu.2)

/-- C6: the emitted next-row identity for the program counter is its synthesized
update multiplied by `(1 - first_step')`, and only the program counter's update
receives this factor; every emitted update identity arises this way. -/
theorem pc_update_gets_first_step_factor (registers : List (String × Register))
    (pcName : Option String) :
    (∀ name reg u, (name, reg) ∈ registers → reg.update_expression = some u →
      Stmt.polynomialIdentity 0 (buildSub (nextReference name)
        (if some name = pcName then
          buildMul (buildSub (buildNumber 1) (nextReference "first_step")) u
        else u)) ∈ buildUpdateIdentities registers pcName) ∧
    (∀ s ∈ buildUpdateIdentities registers pcName, ∃ name reg u,
      (name, reg) ∈ registers ∧ reg.update_expression = some u ∧
      s = Stmt.polynomialIdentity 0 (buildSub (nextReference name)
        (if some name = pcName then
          buildMul (buildSub (buildNumber 1) (nextReference "first_step")) u
        else u))) := by
  constructor
  · intro name reg u hmem hu
    unfold buildUpdateIdentities
    apply List.mem_map.2
    refine ⟨(name, if some name = pcName then
      buildMul (buildSub (buildNumber 1) (nextReference "first_step")) u else u), ?_, rfl⟩
    rw [List.mem_filterMap]
    refine ⟨(name, reg), hmem, ?_⟩
    rw [hu]
    rfl
  · intro s hs
    unfold buildUpdateIdentities at hs
    rw [List.mem_map] at hs
    obtain ⟨nu, hnu, hseq⟩ := hs
    rw [List.mem_filterMap] at hnu
    obtain ⟨nr, hnr, hopt⟩ := hnu
    cases hup : nr.2.update_expression with
    | none => rw [hup] at hopt; cases hopt
    | some u =>
      rw [hup] at hopt
      cases hopt
      exact ⟨nr.1, nr.2, u, hnr, hup, hseq.symm⟩

/-- Program-counter register used by the C6 witness. -/
def c6PcReg : Register := ⟨[], some (buildAdd (directRef "pc") (buildNumber 1)), false⟩

/-- Witness for C6 at a concrete register map: the pc identity carries the
`(1 - first_step')` factor. -/
theorem pc_update_gets_first_step_factor_witness :
    Stmt.polynomialIdentity 0 (buildSub (nextReference "pc")
      (buildMul (buildSub (buildNumber 1) (nextReference "first_step"))
        (buildAdd (directRef "pc") (buildNumber 1))))
      ∈ buildUpdateIdentities [("pc", c6PcReg)] (some "pc") := by
  have h := (pc_update_gets_first_step_factor [("pc", c6PcReg)] (some "pc")).1
    "pc" c6PcReg (buildAdd (directRef "pc") (buildNumber 1))
    (List.mem_cons_self _ _) rfl
  simpa using h



/-! ## Code-line builder (`handle_statement` and helpers) -/

/-- Embedding of `add_assignment_value` (concatenation of affine term lists). -/
def add_assignment_value (left right : List (F × AffineExpressionComponent)) :
    List (F × AffineExpressionComponent) := left ++ right

/-- Embedding of `negate_assignment_value`. -/
def negate_assignment_value (e : List (F × AffineExpressionComponent)) :
    List (F × AffineExpressionComponent) := e.map fun vc => (-vc.1, vc.2)

/-- Embedding of `process_assignment_value`: reduces an assignment right-hand side to
an affine term list; unsupported shapes panic. -/
def process_assignment_value : Expr → Except String (List (F × AffineExpressionComponent))
  | .constant _ => .error "panic: Expression::Constant"
  | .publicRef _ => .error "panic: Expression::PublicReference"
  | .functionCall _ _ => .error "panic: Expression::FunctionCall"
  | .polyRef reference =>
      if reference.namespc.isSome then .error "assertion failed: reference.namespace.is_none()"
      else if reference.index.isSome then .error "assertion failed: reference.index.is_none()"
      else if reference.next then .error "assertion failed: !reference.next"
      else .ok [(1, .register reference.name)]
  | .num value => .ok [(value, .constant)]
  | .str _ => .error "panic: Expression::String"
  | .tuple _ => .error "panic: Expression::Tuple"
  | .matchExpr _ _ => .error "panic: Expression::MatchExpression"
  | .freeInput e => .ok [(1, .freeInput e)]
  | .binaryOperation l op r =>
    match op with
    | .add =>
      match process_assignment_value l with
      | .error e => .error e
      | .ok left =>
        match process_assignment_value r with
        | .error e => .error e
        | .ok right => .ok (add_assignment_value left right)
    | .sub =>
      match process_assignment_value l with
      | .error e => .error e
      | .ok left =>
        match process_assignment_value r with
        | .error e => .error e
        | .ok right => .ok (add_assignment_value left (negate_assignment_value right))
    | .mul =>
      match process_assignment_value l with
      | .error e => .error e
      | .ok left =>
        match process_assignment_value r with
        | .error e => .error e
        | .ok right =>
          match left with
          | [(f, .constant)] => .ok (right.map fun cc => (f * cc.1, cc.2))
          | _ =>
            match right with
            | [(f, .constant)] => .ok (left.map fun cc => (f * cc.1, cc.2))
            | _ => .error "Multiplication by non-constant."
    | .pow =>
      match process_assignment_value l with
      | .error e => .error e
      | .ok left =>
        match process_assignment_value r with
        | .error e => .error e
        | .ok right =>
          match left, right with
          | [(lv, .constant)], [(rv, .constant)] =>
            if rv.val > 4294967295 then .error "Exponent too large"
            else .ok [(lv ^ rv.val, .constant)]
          | _, _ => .error "Exponentiation of non-constants."
    | _ => .error "Invalid operation in expression"
  | .unaryOperation op e =>
    match op with
    | .minus =>
      match process_assignment_value e with
      | .error err => .error err
      | .ok v => .ok (negate_assignment_value v)
    | _ => .error "assertion failed: op == UnaryOperator::Minus"

/-- Embedding of `handle_assignment`. -/
def handle_assignment (write_regs : List String) (assign_reg : Option String)
    (value : Expr) : Except String CodeLine :=
  if write_regs.length > 1 then .error "assertion failed: write_regs.len() <= 1"
  else
    match assign_reg with
    | none => .error "Implicit assign register not yet supported."
    | some assign_reg =>
      match process_assignment_value value with
      | .error e => .error e
      | .ok value =>
        .ok { write_regs := [(assign_reg, write_regs)]
              value := [(assign_reg, value)]
              label := none
              instructions := [] }

/-- One step of the fold over zipped inputs and arguments inside `handle_instruction`. -/
def instructionInputStep
    (acc : List (String × List (F × AffineExpressionComponent)) × List InstructionLiteralArg)
    (input : Input) (a : Expr) :
    Except String (List (String × List (F × AffineExpressionComponent)) × List InstructionLiteralArg) :=
  match input with
  | .register reg =>
      if (lookupA acc.1 reg).isSome then .error "assertion failed: !value.contains_key(reg)"
      else
        match process_assignment_value a with
        | .error e => .error e
        | .ok v => .ok (insertA acc.1 reg v, acc.2)
  | .literal _ .label =>
      match a with
      | .polyRef r => .ok (acc.1, acc.2 ++ [.labelRef r.name])
      | _ => .error "panic: label argument must be a symbol"
  | .literal _ .unsignedConstant =>
      match a with
      | .num n =>
          if isInLowerHalf n then .ok (acc.1, acc.2 ++ [.number n])
          else .error "Number passed to unsigned parameter is negative or too large"
      | _ => .error "panic: unsigned argument must be a number"
  | .literal _ .signedConstant =>
      match a with
      | .num n => .ok (acc.1, acc.2 ++ [.number n])
      | .unaryOperation .minus e =>
          match e with
          | .num n => .ok (acc.1, acc.2 ++ [.number (-n)])
          | _ => .error "panic: signed argument must be a (negated) number"
      | _ => .error "panic: signed argument must be a (negated) number"

/-- The fold over zipped inputs and arguments inside `handle_instruction`. -/
def foldInputs :
    List (Input × Expr) →
    List (String × List (F × AffineExpressionComponent)) × List InstructionLiteralArg →
    Except String (List (String × List (F × AffineExpressionComponent)) × List InstructionLiteralArg)
  | [], acc => .ok acc
  | (input, a) :: rest, acc =>
    match instructionInputStep acc input a with
    | .error e => .error e
    | .ok acc' => foldInputs rest acc'

/-- Processing of one output argument inside `handle_instruction`. -/
def outputArgStep (reg : String) (a : Expr) : Except String (String × List String) :=
  match a with
  | .polyRef r =>
      if r.next then .error "assertion failed: !r.next"
      else if r.index.isSome then .error "assertion failed: r.index.is_none()"
      else .ok (reg, [r.name])
  | _ => .error "Expected direct register to assign to in instruction call."

/-- Embedding of `handle_instruction`. -/
def handle_instruction (instructions : List (String × Instruction))
    (instr_name : String) (args : List Expr) : Except String CodeLine :=
  match lookupA instructions instr_name with
  | none => .error ("Instruction not found: " ++ instr_name)
  | some instr =>
    if instr.inputs.length + instr.outputs.length ≠ args.length then
      .error "assertion failed: instr.inputs.len() + instr.outputs.len() == args.len()"
    else
      match foldInputs (instr.inputs.zip args) ([], []) with
      | .error e => .error e
      | .ok (value, instruction_literal_args) =>
        match mapME (fun ra => outputArgStep ra.1 ra.2)
            (instr.outputs.zip (args.drop instr.inputs.length)) with
        | .error e => .error e
        | .ok outPairs =>
          let write_regs := outPairs.foldl (fun m p => insertA m p.1 p.2) []
          if write_regs.length ≠ instr.outputs.length then
            .error "assertion failed: write_regs.len() == instr.outputs.len()"
          else
            .ok { write_regs := write_regs
                  value := value
                  label := none
                  instructions := [(instr_name, instruction_literal_args)] }

/-- Embedding of `handle_functional_instruction`. -/
def handle_functional_instruction (instructions : List (String × Instruction))
    (write_regs : List String) (assign_reg : String) (instr_name : String)
    (args : List Expr) : Except String CodeLine :=
  match write_regs with
  | [target] =>
    match lookupA instructions instr_name with
    | none => .error ("Intruction not found: " ++ instr_name)
    | some instr =>
      match instr.outputs with
      | [output] =>
        if output ≠ assign_reg then
          .error "The instruction uses another assignment register than the caller."
        else handle_instruction instructions instr_name (args ++ [directRef target])
      | _ => .error "assertion failed: instr.outputs.len() == 1"
  | _ => .error "assertion failed: write_regs.len() == 1"

/-- Parameter of an instruction declaration (`parser::ast::Param`). -/
structure InstrParam where
  name : String
  ty : Option String
deriving DecidableEq, Repr

/-- Parameter list of an instruction declaration. -/
structure InstrParamList where
  params : List InstrParam
deriving DecidableEq, Repr

/-- Typed input/output parameters of an instruction declaration
(`parser::InstructionParams`). -/
structure InstructionParams where
  inputs : InstrParamList
  outputs : Option InstrParamList
deriving DecidableEq, Repr

/-- Lookup operators in instruction bodies (`parser::PlookupOperator`). -/
inductive PlookupOperator where
  | inOp | isOp
deriving DecidableEq, Repr

/-- Elements of an instruction body (`parser::InstructionBodyElement`). -/
inductive InstructionBodyElement where
  | expression (e : Expr)
  | plookupIdentity (left : SelectedExprs) (op : PlookupOperator) (right : SelectedExprs)

/-- The batched assembly statement IR (`parser::ASMStatement`), restricted to the
constructors the converter consumes. -/
inductive ASMStatement where
  | degree (start : Nat) (d : Nat)
  | registerDeclaration (start : Nat) (name : String) (flags : Option RegisterFlag)
  | instructionDeclaration (start : Nat) (name : String) (params : InstructionParams)
      (body : List InstructionBodyElement)
  | inlinePil (start : Nat) (statements : List Stmt)
  | assignment (start : Nat) (write_regs : List String) (assign_reg : Option String)
      (value : Expr)
  | instruction (start : Nat) (name : String) (args : List Expr)
  | label (start : Nat) (name : String)

/-- Embedding of `handle_statement`. The statement kinds that are unreachable in
program position map to an error. -/
def handle_statement (conv : Converter) (statement : ASMStatement) : Except String CodeLine :=
  match statement with
  | .assignment _start write_regs assign_reg value =>
    match value with
    | .functionCall function_name args =>
        match assign_reg with
        | some ar => handle_functional_instruction conv.instructions write_regs ar
            function_name args
        | none => .error "called Option::unwrap on a None value"
    | _ => handle_assignment write_regs assign_reg value
  | .instruction _start instr_name args => handle_instruction conv.instructions instr_name args
  | .label _start name => .ok { CodeLine.empty with label := some name }
  | _ => .error "unreachable"

/-- The closure of the `reduce` in `handle_batch`: merges one further statement's
code line into the accumulated one. -/
def mergeCodeLines (acc e : CodeLine) : Except String CodeLine :=
  if e.label.isSome then .error "assertion failed: e.label.is_none()"
  else .ok
    { write_regs := extendA acc.write_regs e.write_regs
      value := extendA acc.value e.value
      label := acc.label
      instructions := acc.instructions ++ e.instructions }

/-- The `reduce` fold of `handle_batch`. -/
def foldCodeLines : CodeLine → List CodeLine → Except String CodeLine
  | acc, [] => .ok acc
  | acc, e :: rest =>
    match mergeCodeLines acc e with
    | .error err => .error err
    | .ok acc' => foldCodeLines acc' rest

/-- Embedding of `handle_batch`: translates every statement of one lock-step batch,
merges the resulting code lines, and appends the merged line (if any). -/
def handle_batch (conv : Converter) (batch : List ASMStatement) : Except String Converter :=
  match mapME (handle_statement conv) batch with
  | .error e => .error e
  | .ok codeLines =>
    match codeLines with
    | [] => .ok conv
    | c :: cs =>
      match foldCodeLines c cs with
      | .error e => .error e
      | .ok merged => .ok { conv with code_lines := conv.code_lines ++ [merged] }

theorem extendA_singleton {α : Type} (m : List (String × α)) (k : String) (v : α) :
    extendA m [(k, v)] = insertA m k v := rfl

/-- C3 (amended): the statements of one batch are merged into a single CodeLine whose
`write_regs` and `value` maps are the `BTreeMap::extend` union — a later statement's
entry replaces an earlier one with the same assignment-register key (neither summed
nor rejected) — whose instruction lists are concatenated, and in which at most one
label survives (a label on a non-first statement fails the merge). -/
theorem handle_batch_merge_semantics (acc e : CodeLine) :
    (e.label = none → mergeCodeLines acc e = .ok
      { write_regs := extendA acc.write_regs e.write_regs
        value := extendA acc.value e.value
        label := acc.label
        instructions := acc.instructions ++ e.instructions }) ∧
    (∀ lbl, e.label = some lbl → ∃ msg, mergeCodeLines acc e = .error msg) ∧
    (∀ (m : List (String × List (F × AffineExpressionComponent))) (k : String) v,
      lookupA (extendA m [(k, v)]) k = some v) ∧
    (∀ (m : List (String × List (F × AffineExpressionComponent))) (k k' : String) v,
      k' ≠ k → lookupA (extendA m [(k, v)]) k' = lookupA m k') := by
  refine ⟨?_, ?_, ?_, ?_⟩
  · intro h
    simp [mergeCodeLines, h]
  · intro lbl h
    exact ⟨"assertion failed: e.label.is_none()", by simp [mergeCodeLines, h]⟩
  · intro m k v
    rw [extendA_singleton]
    exact lookupA_insertA_self m k v
  · intro m k k' v hne
    rw [extendA_singleton]
    exact lookupA_insertA_ne m k k' v hne

/-- Witness for the amended C3 theorem at concrete code lines. -/
theorem handle_batch_merge_semantics_witness :
    mergeCodeLines CodeLine.empty ⟨[("X", ["B"])], [], none, []⟩ =
      .ok ⟨[("X", ["B"])], [], none, []⟩ := by
  have h := (handle_batch_merge_semantics CodeLine.empty ⟨[("X", ["B"])], [], none, []⟩).1 rfl
  exact h

/-- The C3 counterexample batch: two assignments through the same assignment
register "X" in one batch. -/
def c3Batch : List ASMStatement :=
  [.assignment 0 ["A"] (some "X") (Expr.num 1),
   .assignment 0 ["B"] (some "X") (Expr.num 2)]

/-- C3 counterexample: merging the batch keeps only the second statement's entry for
key "X" — the value map holds the constant 2 (not the sum 1 + 2) and the write list
is ["B"] (not the union ["A", "B"]), refuting "duplicate entries are summed". -/
theorem handle_batch_overwrites_not_sums_cex :
    handle_batch Converter.empty c3Batch = .ok
      { pil := [], pc_name := none, registers := [], instructions := []
        code_lines := [⟨[("X", ["B"])],
          [("X", [((2 : F), AffineExpressionComponent.constant)])], none, []⟩]
        line_lookup := [], program_constant_names := [] } ∧
    ((2 : F) ≠ (1 : F) + (2 : F)) ∧ (["B"] ≠ ["A", "B"]) := by
  refine ⟨rfl, by decide, by decide⟩

/-- C8: an argument bound to an Unsigned-literal input is accepted exactly when it is
a numeric literal in the field's canonical lower half (whose largest element is
accepted and whose complement, e.g. the modulus minus one, is rejected with the
value-range error); non-literal arguments fail as well. -/
theorem unsigned_literal_argument_range (pname : String)
    (acc : List (String × List (F × AffineExpressionComponent)) × List InstructionLiteralArg)
    (a : Expr) :
    (∀ n, a = .num n → isInLowerHalf n = true →
      instructionInputStep acc (.literal pname .unsignedConstant) a =
        .ok (acc.1, acc.2 ++ [.number n])) ∧
    (∀ n, a = .num n → isInLowerHalf n = false →
      instructionInputStep acc (.literal pname .unsignedConstant) a =
        .error "Number passed to unsigned parameter is negative or too large") ∧
    ((∀ n, a ≠ .num n) → ∃ msg,
      instructionInputStep acc (.literal pname .unsignedConstant) a = .error msg) ∧
    isInLowerHalf (((goldilocksModulus - 1) / 2 : Nat) : F) = true ∧
    isInLowerHalf ((goldilocksModulus - 1 : Nat) : F) = false := by
  refine ⟨?_, ?_, ?_, by decide, by decide⟩
  · intro n ha hlow
    subst ha
    simp [instructionInputStep, hlow]
  · intro n ha hlow
    subst ha
    simp [instructionInputStep, hlow]
  · intro hnotnum
    cases a with
    | num n => exact absurd rfl (hnotnum n)
    | constant name => exact ⟨_, rfl⟩
    | publicRef name => exact ⟨_, rfl⟩
    | polyRef r => exact ⟨_, rfl⟩
    | str s => exact ⟨_, rfl⟩
    | tuple items => exact ⟨_, rfl⟩
    | functionCall name args => exact ⟨_, rfl⟩
    | freeInput e => exact ⟨_, rfl⟩
    | matchExpr scrutinee arms => exact ⟨_, rfl⟩
    | binaryOperation l op r => exact ⟨_, rfl⟩
    | unaryOperation op e => exact ⟨_, rfl⟩

/-- Witness for C8: 7 is accepted, the modulus minus one is rejected. -/
theorem unsigned_literal_argument_range_witness :
    instructionInputStep ([], []) (.literal "amount" .unsignedConstant) (.num 7) =
      .ok ([], [.number 7]) ∧
    instructionInputStep ([], []) (.literal "amount" .unsignedConstant)
        (.num ((goldilocksModulus - 1 : Nat) : F)) =
      .error "Number passed to unsigned parameter is negative or too large" := by
  constructor
  · exact (unsigned_literal_argument_range "amount" ([], []) (.num 7)).1 7 rfl (by decide)
  · exact (unsigned_literal_argument_range "amount" ([], [])
      (.num ((goldilocksModulus - 1 : Nat) : F))).2.1 _ rfl (by decide)



/-! ## Program-table materialization (`translate_code_lines` and helpers) -/

/-- The in-construction program fixed columns (`program_constants`). -/
abbrev Consts : Type := List (String × List F)

/-- The in-construction free-value query arms (`free_value_query_arms`). -/
abbrev Arms : Type := List (String × List (Option Expr × Expr))

/-- Embedding of `Iterator::enumerate` starting from `n`. -/
def enumFrom {α : Type} : Nat → List α → List (Nat × α)
  | _, [] => []
  | n, x :: xs => (n, x) :: enumFrom (n + 1) xs

/-- Update of the first entry with the given key, `none` when the key is absent. -/
def updAt {α : Type} : List (String × α) → String → (α → α) → Option (List (String × α))
  | [], _, _ => none
  | (k', v) :: rest, k, f =>
    if k' = k then some ((k', f v) :: rest)
    else
      match updAt rest k f with
      | none => none
      | some m => some ((k', v) :: m)

/-- Embedding of `map.get_mut(key).unwrap_or_else(|| panic!(msg))` followed by a
mutation of the entry. -/
def updME {α : Type} (m : List (String × α)) (k : String) (f : α → α) (msg : String) :
    Except String (List (String × α)) :=
  match updAt m k f with
  | none => .error msg
  | some m' => .ok m'

/-- Embedding of `column[i] = x`. -/
def colSet (m : Consts) (k : String) (i : Nat) (x : F) (msg : String) :
    Except String Consts :=
  updME m k (fun v => v.set i x) msg

/-- Embedding of `column[i] += c`. -/
def colAdd (m : Consts) (k : String) (i : Nat) (c : F) (msg : String) :
    Except String Consts :=
  updME m k (fun v => v.set i (v.getD i 0 + c)) msg

/-- The value of column `k` at row `i` (0 beyond the written length, matching the
zero-initialized vectors). -/
def colAt (m : Consts) (k : String) (i : Nat) : Option F :=
  (lookupA m k).map fun v => v.getD i 0

/-- Inner loop of the `write_regs` pass of `translate_code_lines`. -/
def setWriteRegsInner (i : Nat) (assign_reg : String) :
    List String → Consts → Except String Consts
  | [], pcs => .ok pcs
  | reg :: rest, pcs =>
    match colSet pcs ("p_reg_write_" ++ assign_reg ++ "_" ++ reg) i 1
        ("Register combination " ++ reg ++ " <=" ++ assign_reg ++ "= not found.") with
    | .error e => .error e
    | .ok pcs' => setWriteRegsInner i assign_reg rest pcs'

/-- The `write_regs` pass of `translate_code_lines` for one row. -/
def setWriteRegs (i : Nat) :
    List (String × List String) → Consts → Except String Consts
  | [], pcs => .ok pcs
  | (a, writes) :: rest, pcs =>
    match setWriteRegsInner i a writes pcs with
    | .error e => .error e
    | .ok pcs' => setWriteRegs i rest pcs'

/-- Inner loop of the `value` pass for one assignment register: accumulates read /
const / read-free coefficients and records free-input query arms. -/
def addValueComponents (i : Nat) (assign_reg : String) :
    List (F × AffineExpressionComponent) → Consts × Arms → Except String (Consts × Arms)
  | [], acc => .ok acc
  | (coeff, item) :: rest, (pcs, arms) =>
    match item with
    | .register reg =>
      match colAdd pcs ("p_read_" ++ assign_reg ++ "_" ++ reg) i coeff
          ("Register combination <=" ++ assign_reg ++ "= " ++ reg ++ " not found.") with
      | .error e => .error e
      | .ok pcs' => addValueComponents i assign_reg rest (pcs', arms)
    | .constant =>
      match colAdd pcs ("p_" ++ assign_reg ++ "_const") i coeff
          "called Option::unwrap on a None value" with
      | .error e => .error e
      | .ok pcs' => addValueComponents i assign_reg rest (pcs', arms)
    | .freeInput expr =>
      match colAdd pcs ("p_" ++ assign_reg ++ "_read_free") i coeff
          "called Option::unwrap on a None value" with
      | .error e => .error e
      | .ok pcs' =>
        match updME arms assign_reg
            (fun l => l ++ [(some (buildNumber ((i : Nat) : F)), expr)])
            "called Option::unwrap on a None value" with
        | .error e => .error e
        | .ok arms' => addValueComponents i assign_reg rest (pcs', arms')

/-- The `value` pass of `translate_code_lines` for one row. -/
def addValues (i : Nat) :
    List (String × List (F × AffineExpressionComponent)) → Consts × Arms →
    Except String (Consts × Arms)
  | [], acc => .ok acc
  | (a, value) :: rest, acc =>
    match addValueComponents i a value acc with
    | .error e => .error e
    | .ok acc' => addValues i rest acc'

/-- The inner `write_regs` loop of the instruction pass: forces `p_<reg>_read_free`
to 1 for every assignment register with a nonempty write list. -/
def setReadFreeFlags (i : Nat) :
    List (String × List String) → Consts → Except String Consts
  | [], pcs => .ok pcs
  | (reg, writes) :: rest, pcs =>
    if writes.isEmpty then setReadFreeFlags i rest pcs
    else
      match colSet pcs ("p_" ++ reg ++ "_read_free") i 1
          "called Option::unwrap on a None value" with
      | .error e => .error e
      | .ok pcs' => setReadFreeFlags i rest pcs'

/-- Resolution of one literal argument: label references go through the
label-position table (panicking on a missing label), numbers are copied verbatim. -/
def resolveArg (lp : List (String × Nat)) : InstructionLiteralArg → Except String F
  | .labelRef name =>
    match lookupA lp name with
    | none => .error ("no entry found for key: " ++ name)
    | some j => .ok ((j : Nat) : F)
  | .number n => .ok n

/-- The literal-parameter loop of the instruction pass. -/
def setParams (lp : List (String × Nat)) (i : Nat) (instr : String) :
    List (InstructionLiteralArg × String) → Consts → Except String Consts
  | [], pcs => .ok pcs
  | (arg, param) :: rest, pcs =>
    match resolveArg lp arg with
    | .error e => .error e
    | .ok x =>
      match colSet pcs ("p_instr_" ++ instr ++ "_param_" ++ param) i x
          "called Option::unwrap on a None value" with
      | .error e => .error e
      | .ok pcs' => setParams lp i instr rest pcs'

/-- The instruction pass of `translate_code_lines` for one row. -/
def setInstrs (instructions : List (String × Instruction)) (lp : List (String × Nat))
    (i : Nat) (write_regs : List (String × List String)) :
    List (String × List InstructionLiteralArg) → Consts → Except String Consts
  | [], pcs => .ok pcs
  | (instr, literal_args) :: rest, pcs =>
    match setReadFreeFlags i write_regs pcs with
    | .error e => .error e
    | .ok pcs1 =>
      match colSet pcs1 ("p_instr_" ++ instr) i 1
          "called Option::unwrap on a None value" with
      | .error e => .error e
      | .ok pcs2 =>
        match lookupA instructions instr with
        | none => .error ("no entry found for key: " ++ instr)
        | some instrDef =>
          match setParams lp i instr (literal_args.zip instrDef.literal_arg_names) pcs2 with
          | .error e => .error e
          | .ok pcs3 => setInstrs instructions lp i write_regs rest pcs3

/-- Processing of one enumerated code line inside `translate_code_lines`. -/
def translateLine (instructions : List (String × Instruction)) (lp : List (String × Nat))
    (il : Nat × CodeLine) (acc : Consts × Arms) : Except String (Consts × Arms) :=
  match setWriteRegs il.1 il.2.write_regs acc.1 with
  | .error e => .error e
  | .ok pcs1 =>
    match addValues il.1 il.2.value (pcs1, acc.2) with
    | .error e => .error e
    | .ok acc2 =>
      match setInstrs instructions lp il.1 il.2.write_regs il.2.instructions acc2.1 with
      | .error e => .error e
      | .ok pcs3 => .ok (pcs3, acc2.2)

/-- The per-row loop of `translate_code_lines`. -/
def translateLines (instructions : List (String × Instruction)) (lp : List (String × Nat)) :
    List (Nat × CodeLine) → Consts × Arms → Except String (Consts × Arms)
  | [], acc => .ok acc
  | il :: rest, acc =>
    match translateLine instructions lp il acc with
    | .error e => .error e
    | .ok acc' => translateLines instructions lp rest acc'

/-- Insertion into the label-position table, failing on a duplicate
(`assert!(r.insert(l, i).is_none(), "Duplicate label: {l}")` without the name
interpolation). -/
def insertLabel (m : List (String × Nat)) (l : String) (i : Nat) :
    Except String (List (String × Nat)) :=
  if (lookupA m l).isSome then .error ("Duplicate label: " ++ l)
  else .ok (m ++ [(l, i)])

/-- The fold of `compute_label_positions`. -/
def computeLabelPositionsGo :
    List (Nat × CodeLine) → List (String × Nat) → Except String (List (String × Nat))
  | [], m => .ok m
  | (i, line) :: rest, m =>
    match line.label with
    | none => computeLabelPositionsGo rest m
    | some l =>
      match insertLabel m l i with
      | .error e => .error e
      | .ok m' => computeLabelPositionsGo rest m'

/-- Embedding of `compute_label_positions`. -/
def computeLabelPositions (code_lines : List CodeLine) :
    Except String (List (String × Nat)) :=
  computeLabelPositionsGo (enumFrom 0 code_lines) []

/-- Embedding of `ArrayExpression::pad_with_last`. -/
def ArrayExpr.padWithLast : ArrayExpr → Option ArrayExpr
  | .value items => items.getLast?.map fun l => .concat (.value items) (.repeatedValue [l])
  | _ => none

/-- Embedding of `ArrayExpression::pad_with_zeroes`. -/
def ArrayExpr.padWithZeroes (a : ArrayExpr) : ArrayExpr :=
  .concat a (.repeatedValue [buildNumber 0])

/-- The zero-initialized program columns
(`program_constant_names.map(|n| (n, vec![0; N])).collect::<BTreeMap<_,_>>()`). -/
def initConsts (names : List String) (n : Nat) : Consts :=
  names.foldl (fun m name => insertA m name (List.replicate n (0 : F))) []

/-- Embedding of `translate_code_lines`: pushes `p_line`, folds all code lines into
the program columns and free-value query arms, then pushes the free-value query
columns and the materialized program columns. -/
def translate_code_lines (conv : Converter) : Except String Converter :=
  let n := conv.code_lines.length
  let pLine := Stmt.polynomialConstantDefinition 0 "p_line"
    (FunctionDef.array
      (((ArrayExpr.value ((List.range n).map fun i => buildNumber ((i : Nat) : F))).padWithLast).getD
        (ArrayExpr.repeatedValue [buildNumber 0])))
  let pcs0 := initConsts conv.program_constant_names n
  let arms0 : Arms := conv.assignment_registers.map fun r => (r, [])
  match computeLabelPositions conv.code_lines with
  | .error e => .error e
  | .ok lp =>
    match translateLines conv.instructions lp (enumFrom 0 conv.code_lines) (pcs0, arms0) with
    | .error e => .error e
    | .ok acc =>
      match mapME (fun reg =>
        match conv.pc_name with
        | none => .error "called Option::unwrap on a None value"
        | some pc =>
          match lookupA acc.2 reg with
          | none => .error ("no entry found for key: " ++ reg)
          | some armList => .ok (witnessColumn 0 (reg ++ "_free_value")
              (some (FunctionDef.query ["i"] (Expr.matchExpr (directRef pc) armList)))))
        conv.assignment_registers with
      | .error e => .error e
      | .ok freeValuePil =>
        let constStmts := acc.1.map fun nv => Stmt.polynomialConstantDefinition 0 nv.1
          (FunctionDef.array
            (((ArrayExpr.value (nv.2.map buildNumber)).padWithLast).getD
              (ArrayExpr.repeatedValue [buildNumber 0])))
        .ok { conv with pil := conv.pil ++ [pLine] ++ freeValuePil ++ constStmts }



/-! ## Invariants of the materialization loops -/

theorem getD_set_self {l : List F} {i : Nat} {x : F} (h : i < l.length) :
    (l.set i x).getD i 0 = x := by
  rw [List.getD_eq_getElem?_getD, List.getElem?_set_eq_of_lt x h]
  rfl

theorem getD_set_ne {l : List F} {i j : Nat} {x : F} (h : j ≠ i) :
    (l.set i x).getD j 0 = l.getD j 0 := by
  rw [List.getD_eq_getElem?_getD, List.getD_eq_getElem?_getD,
    List.getElem?_set_ne (Ne.symm h)]

theorem lt_length_of_getD_eq_one {l : List F} {i : Nat} (h : l.getD i 0 = 1) :
    i < l.length := by
  by_contra hge
  rw [List.getD_eq_getElem?_getD, List.getElem?_eq_none (Nat.le_of_not_lt hge)] at h
  exact absurd h.symm (by decide)

/-- After one column update at row `i`: all column lengths are unchanged and every
entry at a row other than `i` is unchanged. -/
def StepOK (i : Nat) (m m' : Consts) : Prop :=
  (∀ k, (lookupA m' k).map List.length = (lookupA m k).map List.length) ∧
  (∀ k j, j ≠ i → colAt m' k j = colAt m k j)

theorem stepOK_refl (i : Nat) (m : Consts) : StepOK i m m :=
  ⟨fun _ => rfl, fun _ _ _ => rfl⟩

theorem stepOK_trans {i : Nat} {m1 m2 m3 : Consts}
    (h1 : StepOK i m1 m2) (h2 : StepOK i m2 m3) : StepOK i m1 m3 :=
  ⟨fun k => (h2.1 k).trans (h1.1 k), fun k j hj => (h2.2 k j hj).trans (h1.2 k j hj)⟩

theorem updAt_ok_lookup {α : Type} :
    ∀ {m m' : List (String × α)} {k : String} {f : α → α},
      updAt m k f = some m' →
      ∀ k', lookupA m' k' = if k' = k then (lookupA m k').map f else lookupA m k' := by
  intro m
  induction m with
  | nil => intro m' k f h; cases h
  | cons kv rest ih =>
    intro m' k f h k'
    obtain ⟨k0, v0⟩ := kv
    simp only [updAt] at h
    by_cases h0 : k0 = k
    · rw [if_pos h0] at h
      cases h
      subst h0
      by_cases hk : k0 = k'
      · subst hk; simp [lookupA]
      · have hk' : ¬ k' = k0 := fun hh => hk hh.symm
        simp [lookupA, hk, hk']
    · rw [if_neg h0] at h
      cases hrest : updAt rest k f with
      | none => rw [hrest] at h; cases h
      | some m2 =>
        rw [hrest] at h
        cases h
        have hr := ih hrest k'
        by_cases hk0 : k0 = k'
        · subst hk0
          have hne : ¬ k0 = k := h0
          simp [lookupA, hne]
        · simp only [lookupA, if_neg hk0, hr]

theorem updME_stepOK {m m' : Consts} {k : String} {i : Nat} {msg : String}
    {f : List F → List F}
    (hlen : ∀ v, (f v).length = v.length)
    (hpres : ∀ (v : List F) j, j ≠ i → (f v).getD j 0 = v.getD j 0)
    (h : updME m k f msg = .ok m') : StepOK i m m' := by
  unfold updME at h
  cases hu : updAt m k f with
  | none => rw [hu] at h; cases h
  | some m2 =>
    rw [hu] at h
    cases h
    have hl := updAt_ok_lookup hu
    constructor
    · intro k'
      rw [hl k']
      by_cases hk : k' = k
      · rw [if_pos hk]
        cases lookupA m k' with
        | none => rfl
        | some v => simp [hlen]
      · rw [if_neg hk]
    · intro k' j hj
      unfold colAt
      rw [hl k']
      by_cases hk : k' = k
      · rw [if_pos hk]
        cases lookupA m k' with
        | none => rfl
        | some v =>
          simp only [Option.map_some', Option.some.injEq]
          exact hpres v j hj
      · rw [if_neg hk]

theorem colSet_stepOK {m m' : Consts} {k : String} {i : Nat} {x : F} {msg : String}
    (h : colSet m k i x msg = .ok m') : StepOK i m m' :=
  updME_stepOK (fun v => List.length_set v i x) (fun _ _ hj => getD_set_ne hj) h

theorem colAdd_stepOK {m m' : Consts} {k : String} {i : Nat} {c : F} {msg : String}
    (h : colAdd m k i c msg = .ok m') : StepOK i m m' :=
  updME_stepOK (fun v => List.length_set v i _) (fun _ _ hj => getD_set_ne hj) h

/-- Column `k` exists and row `i` is inside its materialized length. -/
def InBound (m : Consts) (k : String) (i : Nat) : Prop :=
  ∃ v, lookupA m k = some v ∧ i < v.length

theorem inBound_of_shape {m m' : Consts}
    (hs : ∀ k, (lookupA m' k).map List.length = (lookupA m k).map List.length)
    {k : String} {i : Nat} (h : InBound m k i) : InBound m' k i := by
  obtain ⟨v, hv, hlen⟩ := h
  have := hs k
  rw [hv] at this
  cases hv' : lookupA m' k with
  | none => rw [hv'] at this; cases this
  | some v' =>
    rw [hv'] at this
    refine ⟨v', hv', ?_⟩
    simp only [Option.map_some'] at this
    rw [Option.some.injEq] at this
    rw [this]
    exact hlen

theorem colSet_colAt_self {m m' : Consts} {k : String} {i : Nat} {x : F} {msg : String}
    (h : colSet m k i x msg = .ok m') (hb : InBound m k i) : colAt m' k i = some x := by
  unfold colSet updME at h
  cases hu : updAt m k (fun v => v.set i x) with
  | none => rw [hu] at h; cases h
  | some m2 =>
    rw [hu] at h
    cases h
    obtain ⟨v, hv, hlen⟩ := hb
    have hl := updAt_ok_lookup hu k
    rw [if_pos rfl, hv] at hl
    unfold colAt
    rw [hl]
    simp only [Option.map_some', Option.some.injEq]
    exact getD_set_self hlen

theorem colSet_colAt_other {m m' : Consts} {k k' : String} {i j : Nat} {x : F}
    {msg : String} (h : colSet m k i x msg = .ok m') (hk : k' ≠ k) :
    colAt m' k' j = colAt m k' j := by
  unfold colSet updME at h
  cases hu : updAt m k (fun v => v.set i x) with
  | none => rw [hu] at h; cases h
  | some m2 =>
    rw [hu] at h
    cases h
    have hl := updAt_ok_lookup hu k'
    rw [if_neg hk] at hl
    unfold colAt
    rw [hl]

theorem colSet_keepsOne {m m' : Consts} {k k' : String} {i : Nat} {msg : String}
    (h : colSet m k i 1 msg = .ok m') (hone : colAt m k' i = some 1) :
    colAt m' k' i = some 1 := by
  by_cases hk : k' = k
  · subst hk
    unfold colAt at hone
    cases hv : lookupA m k' with
    | none => rw [hv] at hone; cases hone
    | some v =>
      rw [hv] at hone
      simp only [Option.map_some'] at hone
      rw [Option.some.injEq] at hone
      exact colSet_colAt_self h ⟨v, hv, lt_length_of_getD_eq_one hone⟩
  · rw [colSet_colAt_other h hk]
    exact hone



theorem setWriteRegsInner_stepOK {i : Nat} {a : String} :
    ∀ {ws : List String} {pcs pcs' : Consts},
      setWriteRegsInner i a ws pcs = .ok pcs' → StepOK i pcs pcs' := by
  intro ws
  induction ws with
  | nil => intro pcs pcs' h; cases h; exact stepOK_refl _ _
  | cons reg rest ih =>
    intro pcs pcs' h
    simp only [setWriteRegsInner] at h
    cases hc : colSet pcs ("p_reg_write_" ++ a ++ "_" ++ reg) i 1
        ("Register combination " ++ reg ++ " <=" ++ a ++ "= not found.") with
    | error e => rw [hc] at h; cases h
    | ok pcs1 =>
      rw [hc] at h
      exact stepOK_trans (colSet_stepOK hc) (ih h)

theorem setWriteRegs_stepOK {i : Nat} :
    ∀ {wr : List (String × List String)} {pcs pcs' : Consts},
      setWriteRegs i wr pcs = .ok pcs' → StepOK i pcs pcs' := by
  intro wr
  induction wr with
  | nil => intro pcs pcs' h; cases h; exact stepOK_refl _ _
  | cons aw rest ih =>
    intro pcs pcs' h
    obtain ⟨a, writes⟩ := aw
    simp only [setWriteRegs] at h
    cases hc : setWriteRegsInner i a writes pcs with
    | error e => rw [hc] at h; cases h
    | ok pcs1 =>
      rw [hc] at h
      exact stepOK_trans (setWriteRegsInner_stepOK hc) (ih h)

theorem addValueComponents_stepOK {i : Nat} {a : String} :
    ∀ {vs : List (F × AffineExpressionComponent)} {acc acc' : Consts × Arms},
      addValueComponents i a vs acc = .ok acc' → StepOK i acc.1 acc'.1 := by
  intro vs
  induction vs with
  | nil => intro acc acc' h; cases h; exact stepOK_refl _ _
  | cons cv rest ih =>
    intro acc acc' h
    obtain ⟨pcs, arms⟩ := acc
    obtain ⟨coeff, item⟩ := cv
    cases item with
    | register reg =>
      simp only [addValueComponents] at h
      cases hc : colAdd pcs ("p_read_" ++ a ++ "_" ++ reg) i coeff
          ("Register combination <=" ++ a ++ "= " ++ reg ++ " not found.") with
      | error e => rw [hc] at h; cases h
      | ok pcs1 =>
        rw [hc] at h
        exact stepOK_trans (colAdd_stepOK hc) (ih h)
    | constant =>
      simp only [addValueComponents] at h
      cases hc : colAdd pcs ("p_" ++ a ++ "_const") i coeff
          "called Option::unwrap on a None value" with
      | error e => rw [hc] at h; cases h
      | ok pcs1 =>
        rw [hc] at h
        exact stepOK_trans (colAdd_stepOK hc) (ih h)
    | freeInput expr =>
      simp only [addValueComponents] at h
      cases hc : colAdd pcs ("p_" ++ a ++ "_read_free") i coeff
          "called Option::unwrap on a None value" with
      | error e => rw [hc] at h; cases h
      | ok pcs1 =>
        rw [hc] at h
        cases ha : updME arms a
            (fun l => l ++ [(some (buildNumber ((i : Nat) : F)), expr)])
            "called Option::unwrap on a None value" with
        | error e => rw [ha] at h; cases h
        | ok arms1 =>
          rw [ha] at h
          exact stepOK_trans (colAdd_stepOK hc) (ih h)

theorem addValues_stepOK {i : Nat} :
    ∀ {vs : List (String × List (F × AffineExpressionComponent))} {acc acc' : Consts × Arms},
      addValues i vs acc = .ok acc' → StepOK i acc.1 acc'.1 := by
  intro vs
  induction vs with
  | nil => intro acc acc' h; cases h; exact stepOK_refl _ _
  | cons av rest ih =>
    intro acc acc' h
    obtain ⟨a, value⟩ := av
    simp only [addValues] at h
    cases hc : addValueComponents i a value acc with
    | error e => rw [hc] at h; cases h
    | ok acc1 =>
      rw [hc] at h
      exact stepOK_trans (addValueComponents_stepOK hc) (ih h)

theorem setReadFreeFlags_stepOK {i : Nat} :
    ∀ {wr : List (String × List String)} {pcs pcs' : Consts},
      setReadFreeFlags i wr pcs = .ok pcs' → StepOK i pcs pcs' := by
  intro wr
  induction wr with
  | nil => intro pcs pcs' h; cases h; exact stepOK_refl _ _
  | cons rw0 rest ih =>
    intro pcs pcs' h
    obtain ⟨reg, writes⟩ := rw0
    simp only [setReadFreeFlags] at h
    by_cases hemp : writes.isEmpty
    · rw [if_pos hemp] at h
      exact ih h
    · rw [if_neg hemp] at h
      cases hc : colSet pcs ("p_" ++ reg ++ "_read_free") i 1
          "called Option::unwrap on a None value" with
      | error e => rw [hc] at h; cases h
      | ok pcs1 =>
        rw [hc] at h
        exact stepOK_trans (colSet_stepOK hc) (ih h)

theorem setParams_stepOK {lp : List (String × Nat)} {i : Nat} {instr : String} :
    ∀ {zl : List (InstructionLiteralArg × String)} {pcs pcs' : Consts},
      setParams lp i instr zl pcs = .ok pcs' → StepOK i pcs pcs' := by
  intro zl
  induction zl with
  | nil => intro pcs pcs' h; cases h; exact stepOK_refl _ _
  | cons ap rest ih =>
    intro pcs pcs' h
    obtain ⟨arg, param⟩ := ap
    simp only [setParams] at h
    split at h
    · cases h
    · rename_i x hx
      split at h
      · cases h
      · rename_i pcs1 hc
        exact stepOK_trans (colSet_stepOK hc) (ih h)

theorem setInstrs_stepOK {instructions : List (String × Instruction)}
    {lp : List (String × Nat)} {i : Nat} {wr : List (String × List String)} :
    ∀ {il : List (String × List InstructionLiteralArg)} {pcs pcs' : Consts},
      setInstrs instructions lp i wr il pcs = .ok pcs' → StepOK i pcs pcs' := by
  intro il
  induction il with
  | nil => intro pcs pcs' h; cases h; exact stepOK_refl _ _
  | cons ia rest ih =>
    intro pcs pcs' h
    obtain ⟨instr, literal_args⟩ := ia
    simp only [setInstrs] at h
    split at h
    · cases h
    · rename_i pcs1 h1
      split at h
      · cases h
      · rename_i pcs2 h2
        split at h
        · cases h
        · rename_i instrDef h3
          split at h
          · cases h
          · rename_i pcs3 h4
            exact stepOK_trans (setReadFreeFlags_stepOK h1)
              (stepOK_trans (colSet_stepOK h2)
                (stepOK_trans (setParams_stepOK h4) (ih h)))

theorem translateLine_stepOK {instructions : List (String × Instruction)}
    {lp : List (String × Nat)} {j : Nat} {line : CodeLine} {acc acc' : Consts × Arms}
    (h : translateLine instructions lp (j, line) acc = .ok acc') :
    StepOK j acc.1 acc'.1 := by
  simp only [translateLine] at h
  split at h
  · cases h
  · rename_i pcs1 h1
    split at h
    · cases h
    · rename_i acc2 h2
      split at h
      · cases h
      · rename_i pcs3 h3
        cases h
        exact stepOK_trans (setWriteRegs_stepOK h1)
          (stepOK_trans (addValues_stepOK h2) (setInstrs_stepOK h3))

/-- Rows other than `i`, and all column lengths, are untouched as far as row `i` is
concerned. -/
def PreservedAt (i : Nat) (m m' : Consts) : Prop :=
  (∀ k, (lookupA m' k).map List.length = (lookupA m k).map List.length) ∧
  (∀ k, colAt m' k i = colAt m k i)

theorem preservedAt_refl (i : Nat) (m : Consts) : PreservedAt i m m :=
  ⟨fun _ => rfl, fun _ => rfl⟩

theorem preservedAt_trans {i : Nat} {m1 m2 m3 : Consts}
    (h1 : PreservedAt i m1 m2) (h2 : PreservedAt i m2 m3) : PreservedAt i m1 m3 :=
  ⟨fun k => (h2.1 k).trans (h1.1 k), fun k => (h2.2 k).trans (h1.2 k)⟩

theorem stepOK_preservedAt {j i : Nat} {m m' : Consts}
    (h : StepOK j m m') (hne : i ≠ j) : PreservedAt i m m' :=
  ⟨h.1, fun k => h.2 k i hne⟩

theorem mem_enumFrom {α : Type} :
    ∀ {l : List α} {m : Nat} {p : Nat × α}, p ∈ enumFrom m l → m ≤ p.1 := by
  intro l
  induction l with
  | nil => intro m p h; cases h
  | cons x xs ih =>
    intro m p h
    cases h with
    | head => exact Nat.le_refl _
    | tail _ h' => exact Nat.le_of_succ_le (ih h')

theorem translateLines_preservedAt {instructions : List (String × Instruction)}
    {lp : List (String × Nat)} {i : Nat} :
    ∀ {pairs : List (Nat × CodeLine)} {acc acc' : Consts × Arms},
      translateLines instructions lp pairs acc = .ok acc' →
      (∀ p ∈ pairs, p.1 ≠ i) → PreservedAt i acc.1 acc'.1 := by
  intro pairs
  induction pairs with
  | nil => intro acc acc' h _; cases h; exact preservedAt_refl _ _
  | cons il rest ih =>
    intro acc acc' h hne
    obtain ⟨j, line⟩ := il
    simp only [translateLines] at h
    cases hc : translateLine instructions lp (j, line) acc with
    | error e => rw [hc] at h; cases h
    | ok acc1 =>
      rw [hc] at h
      have hj : j ≠ i := hne (j, line) (List.mem_cons_self _ _)
      exact preservedAt_trans
        (stepOK_preservedAt (translateLine_stepOK hc) (fun he => hj he.symm))
        (ih h (fun p hp => hne p (List.mem_cons_of_mem _ hp)))



theorem setReadFreeFlags_keepsOne {i : Nat} {rf : String} :
    ∀ {l : List (String × List String)} {pcs pcs' : Consts},
      setReadFreeFlags i l pcs = .ok pcs' → colAt pcs rf i = some 1 →
      colAt pcs' rf i = some 1 := by
  intro l
  induction l with
  | nil => intro pcs pcs' h hone; cases h; exact hone
  | cons rw0 rest ih =>
    intro pcs pcs' h hone
    obtain ⟨r0, w0⟩ := rw0
    simp only [setReadFreeFlags] at h
    by_cases hemp : w0.isEmpty
    · rw [if_pos hemp] at h
      exact ih h hone
    · rw [if_neg hemp] at h
      cases hc : colSet pcs ("p_" ++ r0 ++ "_read_free") i 1
          "called Option::unwrap on a None value" with
      | error e => rw [hc] at h; cases h
      | ok pcs1 =>
        rw [hc] at h
        exact ih h (colSet_keepsOne hc hone)

theorem setReadFreeFlags_sets {i : Nat} {reg : String} {writes : List String} :
    ∀ {l : List (String × List String)} {pcs pcs' : Consts},
      setReadFreeFlags i l pcs = .ok pcs' → (reg, writes) ∈ l → writes ≠ [] →
      InBound pcs ("p_" ++ reg ++ "_read_free") i →
      colAt pcs' ("p_" ++ reg ++ "_read_free") i = some 1 := by
  intro l
  induction l with
  | nil => intro pcs pcs' _ hmem; cases hmem
  | cons rw0 rest ih =>
    intro pcs pcs' h hmem hwne hb
    obtain ⟨r0, w0⟩ := rw0
    simp only [setReadFreeFlags] at h
    cases hmem with
    | head =>
      have hemp : ¬ writes.isEmpty = true := by
        cases writes with
        | nil => exact absurd rfl hwne
        | cons a as => simp [List.isEmpty]
      rw [if_neg hemp] at h
      cases hc : colSet pcs ("p_" ++ reg ++ "_read_free") i 1
          "called Option::unwrap on a None value" with
      | error e => rw [hc] at h; cases h
      | ok pcs1 =>
        rw [hc] at h
        exact setReadFreeFlags_keepsOne h (colSet_colAt_self hc hb)
    | tail _ hmem' =>
      by_cases hemp : w0.isEmpty
      · rw [if_pos hemp] at h
        exact ih h hmem' hwne hb
      · rw [if_neg hemp] at h
        cases hc : colSet pcs ("p_" ++ r0 ++ "_read_free") i 1
            "called Option::unwrap on a None value" with
        | error e => rw [hc] at h; cases h
        | ok pcs1 =>
          rw [hc] at h
          exact ih h hmem' hwne (inBound_of_shape (colSet_stepOK hc).1 hb)

theorem setParams_keeps {lp : List (String × Nat)} {i : Nat} {instr rf : String} :
    ∀ {zl : List (InstructionLiteralArg × String)} {pcs pcs' : Consts},
      setParams lp i instr zl pcs = .ok pcs' →
      (∀ q ∈ zl, ("p_instr_" ++ instr ++ "_param_" ++ q.2) ≠ rf) →
      colAt pcs' rf i = colAt pcs rf i := by
  intro zl
  induction zl with
  | nil => intro pcs pcs' h _; cases h; rfl
  | cons ap rest ih =>
    intro pcs pcs' h hnames
    obtain ⟨arg, param⟩ := ap
    simp only [setParams] at h
    split at h
    · cases h
    · rename_i x hx
      split at h
      · cases h
      · rename_i pcs1 hc
        have hne : rf ≠ ("p_instr_" ++ instr ++ "_param_" ++ param) :=
          fun he => hnames (arg, param) (List.mem_cons_self _ _) he.symm
        rw [ih h (fun q hq => hnames q (List.mem_cons_of_mem _ hq))]
        exact colSet_colAt_other hc hne

theorem setInstrs_keepsOne {instructions : List (String × Instruction)}
    {lp : List (String × Nat)} {i : Nat} {wr : List (String × List String)} {rf : String} :
    ∀ {il : List (String × List InstructionLiteralArg)} {pcs pcs' : Consts},
      setInstrs instructions lp i wr il pcs = .ok pcs' →
      (∀ q ∈ il, ("p_instr_" ++ q.1) ≠ rf ∧
        ∀ instrDef, lookupA instructions q.1 = some instrDef →
          ∀ pq ∈ q.2.zip instrDef.literal_arg_names,
            ("p_instr_" ++ q.1 ++ "_param_" ++ pq.2) ≠ rf) →
      colAt pcs rf i = some 1 → colAt pcs' rf i = some 1 := by
  intro il
  induction il with
  | nil => intro pcs pcs' h _ hone; cases h; exact hone
  | cons ia rest ih =>
    intro pcs pcs' h hnames hone
    obtain ⟨instr, literal_args⟩ := ia
    simp only [setInstrs] at h
    split at h
    · cases h
    · rename_i pcs1 h1
      split at h
      · cases h
      · rename_i pcs2 h2
        split at h
        · cases h
        · rename_i instrDef h3
          split at h
          · cases h
          · rename_i pcs3 h4
            have hone1 := setReadFreeFlags_keepsOne h1 hone
            have hflag : rf ≠ ("p_instr_" ++ instr) :=
              fun he => (hnames (instr, literal_args) (List.mem_cons_self _ _)).1 he.symm
            have hone2 : colAt pcs2 rf i = some 1 := by
              rw [colSet_colAt_other h2 hflag]; exact hone1
            have hone3 : colAt pcs3 rf i = some 1 := by
              rw [setParams_keeps h4
                ((hnames (instr, literal_args) (List.mem_cons_self _ _)).2 instrDef h3)]
              exact hone2
            exact ih h (fun q hq => hnames q (List.mem_cons_of_mem _ hq)) hone3

theorem setInstrs_forces {instructions : List (String × Instruction)}
    {lp : List (String × Nat)} {i : Nat} {wr : List (String × List String)}
    {reg : String} {writes : List String}
    (hmem : (reg, writes) ∈ wr) (hwne : writes ≠ []) :
    ∀ {il : List (String × List InstructionLiteralArg)} {pcs pcs' : Consts},
      setInstrs instructions lp i wr il pcs = .ok pcs' → il ≠ [] →
      (∀ q ∈ il, ("p_instr_" ++ q.1) ≠ ("p_" ++ reg ++ "_read_free") ∧
        ∀ instrDef, lookupA instructions q.1 = some instrDef →
          ∀ pq ∈ q.2.zip instrDef.literal_arg_names,
            ("p_instr_" ++ q.1 ++ "_param_" ++ pq.2) ≠ ("p_" ++ reg ++ "_read_free")) →
      InBound pcs ("p_" ++ reg ++ "_read_free") i →
      colAt pcs' ("p_" ++ reg ++ "_read_free") i = some 1 := by
  intro il
  cases il with
  | nil => intro pcs pcs' _ hne; exact absurd rfl hne
  | cons ia rest =>
    intro pcs pcs' h _ hnames hb
    obtain ⟨instr, literal_args⟩ := ia
    simp only [setInstrs] at h
    split at h
    · cases h
    · rename_i pcs1 h1
      split at h
      · cases h
      · rename_i pcs2 h2
        split at h
        · cases h
        · rename_i instrDef h3
          split at h
          · cases h
          · rename_i pcs3 h4
            have hone1 := setReadFreeFlags_sets h1 hmem hwne hb
            have hflag : ("p_" ++ reg ++ "_read_free") ≠ ("p_instr_" ++ instr) :=
              fun he => (hnames (instr, literal_args) (List.mem_cons_self _ _)).1 he.symm
            have hone2 : colAt pcs2 ("p_" ++ reg ++ "_read_free") i = some 1 := by
              rw [colSet_colAt_other h2 hflag]; exact hone1
            have hone3 : colAt pcs3 ("p_" ++ reg ++ "_read_free") i = some 1 := by
              rw [setParams_keeps h4
                ((hnames (instr, literal_args) (List.mem_cons_self _ _)).2 instrDef h3)]
              exact hone2
            exact setInstrs_keepsOne h (fun q hq => hnames q (List.mem_cons_of_mem _ hq)) hone3

theorem translateLine_forces {instructions : List (String × Instruction)}
    {lp : List (String × Nat)} {j : Nat} {line : CodeLine} {acc acc' : Consts × Arms}
    {reg : String} {writes : List String}
    (h : translateLine instructions lp (j, line) acc = .ok acc')
    (hinstr : line.instructions ≠ [])
    (hmem : (reg, writes) ∈ line.write_regs) (hwne : writes ≠ [])
    (hnames : ∀ q ∈ line.instructions,
      ("p_instr_" ++ q.1) ≠ ("p_" ++ reg ++ "_read_free") ∧
      ∀ instrDef, lookupA instructions q.1 = some instrDef →
        ∀ pq ∈ q.2.zip instrDef.literal_arg_names,
          ("p_instr_" ++ q.1 ++ "_param_" ++ pq.2) ≠ ("p_" ++ reg ++ "_read_free"))
    (hb : InBound acc.1 ("p_" ++ reg ++ "_read_free") j) :
    colAt acc'.1 ("p_" ++ reg ++ "_read_free") j = some 1 := by
  simp only [translateLine] at h
  split at h
  · cases h
  · rename_i pcs1 h1
    split at h
    · cases h
    · rename_i acc2 h2
      split at h
      · cases h
      · rename_i pcs3 h3
        cases h
        have hb1 := inBound_of_shape (setWriteRegs_stepOK h1).1 hb
        have hb2 := inBound_of_shape (addValues_stepOK h2).1 hb1
        exact setInstrs_forces hmem hwne h3 hinstr hnames hb2

theorem translateLines_row_property {instructions : List (String × Instruction)}
    {lp : List (String × Nat)} {rf : String} {c : F} {P : CodeLine → Prop}
    (hrow : ∀ (j : Nat) (line : CodeLine) (acc acc' : Consts × Arms),
      translateLine instructions lp (j, line) acc = .ok acc' → P line →
      InBound acc.1 rf j → colAt acc'.1 rf j = some c) :
    ∀ (lines : List CodeLine) (n : Nat) (acc acc' : Consts × Arms) (i : Nat)
      (line : CodeLine),
      translateLines instructions lp (enumFrom n lines) acc = .ok acc' →
      lines.get? i = some line → P line → InBound acc.1 rf (n + i) →
      colAt acc'.1 rf (n + i) = some c := by
  intro lines
  induction lines with
  | nil =>
    intro n acc acc' i line _ hget
    simp [List.get?] at hget
  | cons l0 ls ih =>
    intro n acc acc' i line hrun hget hP hb
    rw [show enumFrom n (l0 :: ls) = (n, l0) :: enumFrom (n + 1) ls from rfl] at hrun
    simp only [translateLines] at hrun
    cases hc : translateLine instructions lp (n, l0) acc with
    | error e => rw [hc] at hrun; cases hrun
    | ok acc1 =>
      rw [hc] at hrun
      cases i with
      | zero =>
        have hl : line = l0 := by
          rw [List.get?_cons_zero] at hget
          exact (Option.some.inj hget).symm
        subst hl
        have h1 : colAt acc1.1 rf (n + 0) = some c := by
          rw [Nat.add_zero]
          rw [Nat.add_zero] at hb
          exact hrow n line acc acc1 hc hP hb
        have hne : ∀ p ∈ enumFrom (n + 1) ls, p.1 ≠ n + 0 := by
          intro p hp
          have := mem_enumFrom hp
          omega
        have hpres := translateLines_preservedAt hrun hne
        rw [hpres.2 rf]
        exact h1
      | succ i' =>
        have hget' : ls.get? i' = some line := hget
        have hb1 : InBound acc1.1 rf (n + (i' + 1)) :=
          inBound_of_shape (translateLine_stepOK hc).1 hb
        have heq : (n + 1) + i' = n + (i' + 1) := by omega
        have hb1' : InBound acc1.1 rf ((n + 1) + i') := by rw [heq]; exact hb1
        have hres := ih (n + 1) acc1 acc' i' line hrun hget' hP hb1'
        rw [show n + (i' + 1) = (n + 1) + i' from heq.symm]
        exact hres

/-- C4: during program-table materialization, every row whose code line fires at
least one instruction and writes at least one register through an assignment
register gets that register's `p_<reg>_read_free` entry force-set to exactly 1 for
that row, overwriting whatever was accumulated there (provided the instruction-flag
and parameter columns of the row do not collide with the read-free column name). -/
theorem instruction_row_forces_read_free
    (instructions : List (String × Instruction)) (lp : List (String × Nat))
    (lines : List CodeLine) (pcs0 : Consts) (arms0 : Arms) (res : Consts × Arms)
    (i : Nat) (line : CodeLine) (reg : String) (writes : List String)
    (hrun : translateLines instructions lp (enumFrom 0 lines) (pcs0, arms0) = .ok res)
    (hget : lines.get? i = some line)
    (hinstr : line.instructions ≠ [])
    (hw : (reg, writes) ∈ line.write_regs) (hwne : writes ≠ [])
    (hnames : ∀ q ∈ line.instructions,
      ("p_instr_" ++ q.1) ≠ ("p_" ++ reg ++ "_read_free") ∧
      ∀ instrDef, lookupA instructions q.1 = some instrDef →
        ∀ pq ∈ q.2.zip instrDef.literal_arg_names,
          ("p_instr_" ++ q.1 ++ "_param_" ++ pq.2) ≠ ("p_" ++ reg ++ "_read_free"))
    (hb : InBound pcs0 ("p_" ++ reg ++ "_read_free") i) :
    colAt res.1 ("p_" ++ reg ++ "_read_free") i = some 1 := by
  have h := translateLines_row_property
    (P := fun l => l.instructions ≠ [] ∧ (reg, writes) ∈ l.write_regs ∧ writes ≠ [] ∧
      (∀ q ∈ l.instructions,
        ("p_instr_" ++ q.1) ≠ ("p_" ++ reg ++ "_read_free") ∧
        ∀ instrDef, lookupA instructions q.1 = some instrDef →
          ∀ pq ∈ q.2.zip instrDef.literal_arg_names,
            ("p_instr_" ++ q.1 ++ "_param_" ++ pq.2) ≠ ("p_" ++ reg ++ "_read_free")))
    (fun j l acc acc' hline hPl hbl =>
      translateLine_forces hline hPl.1 hPl.2.1 hPl.2.2.1 hPl.2.2.2 hbl)
    lines 0 (pcs0, arms0) res i line hrun hget ⟨hinstr, hw, hwne, hnames⟩
    (by rw [Nat.zero_add]; exact hb)
  rw [Nat.zero_add] at h
  exact h

/-- Code line used by the C4 witness: one instruction call and one write through
assignment register X. -/
def c4Line : CodeLine := ⟨[("X", ["A"])], [], none, [("foo", [])]⟩

/-- Instruction map of the C4 witness. -/
def c4Instrs : List (String × Instruction) := [("foo", ⟨[], []⟩)]

/-- Initial program columns of the C4 witness. -/
def c4Pcs0 : Consts := initConsts ["p_X_read_free", "p_instr_foo", "p_reg_write_X_A"] 1

/-- Witness for C4 at a concrete one-row program. -/
theorem instruction_row_forces_read_free_witness :
    ∃ res, translateLines c4Instrs [] (enumFrom 0 [c4Line]) (c4Pcs0, []) = .ok res ∧
      colAt res.1 "p_X_read_free" 0 = some 1 := by
  refine ⟨_, rfl, ?_⟩
  have h := instruction_row_forces_read_free c4Instrs [] [c4Line] c4Pcs0 [] _ 0 c4Line
    "X" ["A"] rfl rfl (by simp [c4Line]) (by simp [c4Line]) (by simp)
    (by
      intro q hq
      simp only [c4Line, List.mem_singleton] at hq
      subst hq
      refine ⟨by decide, ?_⟩
      intro instrDef _ pq hpq
      simp at hpq)
    ⟨List.replicate 1 0, rfl, by decide⟩
  exact h



/-! ## Label resolution lemmas -/

theorem lookupA_isSome_of_mem {α : Type} {k : String} {v : α} :
    ∀ {m : List (String × α)}, (k, v) ∈ m → (lookupA m k).isSome := by
  intro m
  induction m with
  | nil => intro h; cases h
  | cons kv rest ih =>
    intro h
    obtain ⟨k0, v0⟩ := kv
    by_cases h0 : k0 = k
    · simp [lookupA, h0]
    · cases h with
      | head => exact absurd rfl h0
      | tail _ h' => simp [lookupA, h0, ih h']

theorem lookupA_some_of_mem_nodup {α : Type} {k : String} {v : α} :
    ∀ {m : List (String × α)}, (m.map Prod.fst).Nodup → (k, v) ∈ m →
      lookupA m k = some v := by
  intro m
  induction m with
  | nil => intro _ h; cases h
  | cons kv rest ih =>
    intro hnodup h
    obtain ⟨k0, v0⟩ := kv
    rw [List.map_cons, List.nodup_cons] at hnodup
    cases h with
    | head => simp [lookupA]
    | tail _ h' =>
      have hk0 : k0 ≠ k := by
        intro he
        subst he
        exact hnodup.1 (List.mem_map.2 ⟨(k0, v), h', rfl⟩)
      simp [lookupA, hk0, ih hnodup.2 h']

theorem mem_of_lookupA_some {α : Type} {k : String} {v : α} :
    ∀ {m : List (String × α)}, lookupA m k = some v → (k, v) ∈ m := by
  intro m
  induction m with
  | nil => intro h; cases h
  | cons kv rest ih =>
    intro h
    obtain ⟨k0, v0⟩ := kv
    simp only [lookupA] at h
    by_cases h0 : k0 = k
    · rw [if_pos h0] at h
      cases h
      subst h0
      exact List.mem_cons_self _ _
    · rw [if_neg h0] at h
      exact List.mem_cons_of_mem _ (ih h)

/-- The labels collected from an enumerated code-line list. -/
def collectedLabels (ps : List (Nat × CodeLine)) : List (String × Nat) :=
  ps.filterMap (fun p => p.2.label.map fun l => (l, p.1))

theorem clpGo_ok_eq :
    ∀ {ps : List (Nat × CodeLine)} {m0 m : List (String × Nat)},
      computeLabelPositionsGo ps m0 = .ok m → m = m0 ++ collectedLabels ps := by
  intro ps
  induction ps with
  | nil => intro m0 m h; cases h; simp [collectedLabels]
  | cons p rest ih =>
    intro m0 m h
    obtain ⟨i, line⟩ := p
    simp only [computeLabelPositionsGo] at h
    cases hl : line.label with
    | none =>
      rw [hl] at h
      rw [ih h]
      simp [collectedLabels, List.filterMap_cons, hl]
    | some l =>
      rw [hl] at h
      simp only [insertLabel] at h
      by_cases hs : (lookupA m0 l).isSome
      · rw [if_pos hs] at h; cases h
      · rw [if_neg hs] at h
        rw [ih h]
        simp [collectedLabels, List.filterMap_cons, hl]

theorem clpGo_keys_nodup :
    ∀ {ps : List (Nat × CodeLine)} {m0 m : List (String × Nat)},
      computeLabelPositionsGo ps m0 = .ok m →
      (m0.map Prod.fst).Nodup → (m.map Prod.fst).Nodup := by
  intro ps
  induction ps with
  | nil => intro m0 m h hn; cases h; exact hn
  | cons p rest ih =>
    intro m0 m h hn
    obtain ⟨i, line⟩ := p
    simp only [computeLabelPositionsGo] at h
    cases hl : line.label with
    | none => rw [hl] at h; exact ih h hn
    | some l =>
      rw [hl] at h
      simp only [insertLabel] at h
      by_cases hs : (lookupA m0 l).isSome
      · rw [if_pos hs] at h; cases h
      · rw [if_neg hs] at h
        refine ih h ?_
        rw [List.map_append, List.map_singleton]
        rw [List.nodup_append]
        refine ⟨hn, List.nodup_singleton l, ?_⟩
        intro a ha hb
        rw [List.mem_singleton] at hb
        subst hb
        rw [List.mem_map] at ha
        obtain ⟨⟨k0, v0⟩, hmem, hk⟩ := ha
        cases hk
        exact hs (lookupA_isSome_of_mem hmem)

theorem mem_enumFrom_iff {α : Type} :
    ∀ {l : List α} {n : Nat} {p : Nat × α},
      p ∈ enumFrom n l ↔ ∃ i, l.get? i = some p.2 ∧ p.1 = n + i := by
  intro l
  induction l with
  | nil =>
    intro n p
    simp only [enumFrom, List.not_mem_nil, false_iff]
    rintro ⟨i, hi, -⟩
    simp [List.get?] at hi
  | cons x xs ih =>
    intro n p
    constructor
    · intro h
      cases h with
      | head => exact ⟨0, rfl, by omega⟩
      | tail _ h' =>
        obtain ⟨i, hi, hp⟩ := ih.1 h'
        exact ⟨i + 1, hi, by omega⟩
    · rintro ⟨i, hi, hp⟩
      cases i with
      | zero =>
        rw [List.get?_cons_zero] at hi
        obtain ⟨p1, p2⟩ := p
        simp only at hp
        cases hi
        rw [show p1 = n from by omega]
        exact List.mem_cons_self _ _
      | succ i' =>
        rw [List.get?_cons_succ] at hi
        exact List.mem_cons_of_mem _ (ih.2 ⟨i', hi, by omega⟩)

theorem mem_collectedLabels_iff {lines : List CodeLine} {lbl : String} {j : Nat} :
    (lbl, j) ∈ collectedLabels (enumFrom 0 lines) ↔
      ∃ line, lines.get? j = some line ∧ line.label = some lbl := by
  unfold collectedLabels
  rw [List.mem_filterMap]
  constructor
  · rintro ⟨⟨i, line⟩, hmem, hf⟩
    simp only [Option.map_eq_some'] at hf
    obtain ⟨l, hl, heq⟩ := hf
    cases heq
    obtain ⟨i', hget, hi⟩ := mem_enumFrom_iff.1 hmem
    simp only at hget hi
    rw [show i' = j from by omega] at hget
    exact ⟨line, hget, hl⟩
  · rintro ⟨line, hget, hl⟩
    refine ⟨(j, line), mem_enumFrom_iff.2 ⟨j, hget, by omega⟩, ?_⟩
    simp [hl]

theorem label_positions_characterize {lines : List CodeLine}
    {m : List (String × Nat)} (h : computeLabelPositions lines = .ok m) :
    ∀ lbl j, lookupA m lbl = some j ↔
      ∃ line, lines.get? j = some line ∧ line.label = some lbl := by
  have hm := clpGo_ok_eq h
  rw [List.nil_append] at hm
  have hnodup := clpGo_keys_nodup h (by simp)
  intro lbl j
  constructor
  · intro hl
    have := mem_of_lookupA_some hl
    rw [hm] at this
    exact mem_collectedLabels_iff.1 this
  · intro hex
    have hmem : (lbl, j) ∈ m := by
      rw [hm]
      exact mem_collectedLabels_iff.2 hex
    exact lookupA_some_of_mem_nodup hnodup hmem



theorem setParams_final {lp : List (String × Nat)} {i : Nat} {instr p : String}
    {B : List (InstructionLiteralArg × String)} {lbl : String} {j : Nat}
    (hlbl : lookupA lp lbl = some j)
    (hB : ∀ q ∈ B, ("p_instr_" ++ instr ++ "_param_" ++ q.2) ≠
      ("p_instr_" ++ instr ++ "_param_" ++ p)) :
    ∀ {A : List (InstructionLiteralArg × String)} {pcs pcs' : Consts},
      setParams lp i instr (A ++ (InstructionLiteralArg.labelRef lbl, p) :: B) pcs = .ok pcs' →
      InBound pcs ("p_instr_" ++ instr ++ "_param_" ++ p) i →
      colAt pcs' ("p_instr_" ++ instr ++ "_param_" ++ p) i = some ((j : Nat) : F) := by
  intro A
  induction A with
  | nil =>
    intro pcs pcs' h hb
    rw [List.nil_append] at h
    simp only [setParams, resolveArg, hlbl] at h
    split at h
    · cases h
    · rename_i pcs1 hc
      rw [setParams_keeps h hB]
      exact colSet_colAt_self hc hb
  | cons a0 A ih =>
    intro pcs pcs' h hb
    rw [List.cons_append] at h
    simp only [setParams] at h
    split at h
    · cases h
    · rename_i x hx
      split at h
      · cases h
      · rename_i pcs1 hc
        exact ih h (inBound_of_shape (colSet_stepOK hc).1 hb)

theorem setReadFreeFlags_keeps {i : Nat} {rf : String} :
    ∀ {l : List (String × List String)} {pcs pcs' : Consts},
      setReadFreeFlags i l pcs = .ok pcs' →
      (∀ q ∈ l, ¬ q.2.isEmpty = true → ("p_" ++ q.1 ++ "_read_free") ≠ rf) →
      colAt pcs' rf i = colAt pcs rf i := by
  intro l
  induction l with
  | nil => intro pcs pcs' h _; cases h; rfl
  | cons rw0 rest ih =>
    intro pcs pcs' h hnames
    obtain ⟨r0, w0⟩ := rw0
    simp only [setReadFreeFlags] at h
    by_cases hemp : w0.isEmpty
    · rw [if_pos hemp] at h
      exact ih h (fun q hq => hnames q (List.mem_cons_of_mem _ hq))
    · rw [if_neg hemp] at h
      cases hc : colSet pcs ("p_" ++ r0 ++ "_read_free") i 1
          "called Option::unwrap on a None value" with
      | error e => rw [hc] at h; cases h
      | ok pcs1 =>
        rw [hc] at h
        have hne : rf ≠ ("p_" ++ r0 ++ "_read_free") :=
          fun he => hnames (r0, w0) (List.mem_cons_self _ _) hemp he.symm
        rw [ih h (fun q hq => hnames q (List.mem_cons_of_mem _ hq))]
        exact colSet_colAt_other hc hne

theorem setInstrs_keepsVal {instructions : List (String × Instruction)}
    {lp : List (String × Nat)} {i : Nat} {wr : List (String × List String)}
    {ins p lbl : String} {j : Nat} {largs : List InstructionLiteralArg}
    {instrDef : Instruction} {A B : List (InstructionLiteralArg × String)}
    (hdef : lookupA instructions ins = some instrDef)
    (hzip : largs.zip instrDef.literal_arg_names =
      A ++ (InstructionLiteralArg.labelRef lbl, p) :: B)
    (hB : ∀ q ∈ B, ("p_instr_" ++ ins ++ "_param_" ++ q.2) ≠
      ("p_instr_" ++ ins ++ "_param_" ++ p))
    (hlbl : lookupA lp lbl = some j)
    (hwr : ∀ q ∈ wr, ¬ q.2.isEmpty = true →
      ("p_" ++ q.1 ++ "_read_free") ≠ ("p_instr_" ++ ins ++ "_param_" ++ p)) :
    ∀ {il : List (String × List InstructionLiteralArg)} {pcs pcs' : Consts},
      setInstrs instructions lp i wr il pcs = .ok pcs' →
      (∀ q ∈ il, ("p_instr_" ++ q.1) ≠ ("p_instr_" ++ ins ++ "_param_" ++ p) ∧
        (q ≠ (ins, largs) → ∀ d, lookupA instructions q.1 = some d →
          ∀ pq ∈ q.2.zip d.literal_arg_names,
            ("p_instr_" ++ q.1 ++ "_param_" ++ pq.2) ≠
              ("p_instr_" ++ ins ++ "_param_" ++ p))) →
      InBound pcs ("p_instr_" ++ ins ++ "_param_" ++ p) i →
      colAt pcs ("p_instr_" ++ ins ++ "_param_" ++ p) i = some ((j : Nat) : F) →
      colAt pcs' ("p_instr_" ++ ins ++ "_param_" ++ p) i = some ((j : Nat) : F) := by
  intro il
  induction il with
  | nil => intro pcs pcs' h _ _ hval; cases h; exact hval
  | cons ia rest ih =>
    intro pcs pcs' h hnames hb hval
    obtain ⟨instr, literal_args⟩ := ia
    simp only [setInstrs] at h
    split at h
    · cases h
    · rename_i pcs1 h1
      split at h
      · cases h
      · rename_i pcs2 h2
        split at h
        · cases h
        · rename_i d h3
          split at h
          · cases h
          · rename_i pcs3 h4
            have hval1 : colAt pcs1 ("p_instr_" ++ ins ++ "_param_" ++ p) i =
                some ((j : Nat) : F) := by
              rw [setReadFreeFlags_keeps h1 hwr]; exact hval
            have hval2 : colAt pcs2 ("p_instr_" ++ ins ++ "_param_" ++ p) i =
                some ((j : Nat) : F) := by
              rw [colSet_colAt_other h2
                (Ne.symm (hnames (instr, literal_args) (List.mem_cons_self _ _)).1)]
              exact hval1
            have hb1 := inBound_of_shape (setReadFreeFlags_stepOK h1).1 hb
            have hb2 := inBound_of_shape (colSet_stepOK h2).1 hb1
            have hb3 := inBound_of_shape (setParams_stepOK h4).1 hb2
            by_cases hq : (instr, literal_args) = (ins, largs)
            · rw [Prod.mk.injEq] at hq
              obtain ⟨hq1, hq2⟩ := hq
              subst hq1
              subst hq2
              rw [hdef] at h3
              cases h3
              rw [hzip] at h4
              have hval3 := setParams_final hlbl hB h4 hb2
              exact ih h (fun q hq' => hnames q (List.mem_cons_of_mem _ hq')) hb3 hval3
            · have hval3 : colAt pcs3 ("p_instr_" ++ ins ++ "_param_" ++ p) i =
                  some ((j : Nat) : F) := by
                rw [setParams_keeps h4
                  ((hnames (instr, literal_args) (List.mem_cons_self _ _)).2 hq d h3)]
                exact hval2
              exact ih h (fun q hq' => hnames q (List.mem_cons_of_mem _ hq')) hb3 hval3

theorem setInstrs_sets_param {instructions : List (String × Instruction)}
    {lp : List (String × Nat)} {i : Nat} {wr : List (String × List String)}
    {ins p lbl : String} {j : Nat} {largs : List InstructionLiteralArg}
    {instrDef : Instruction} {A B : List (InstructionLiteralArg × String)}
    (hdef : lookupA instructions ins = some instrDef)
    (hzip : largs.zip instrDef.literal_arg_names =
      A ++ (InstructionLiteralArg.labelRef lbl, p) :: B)
    (hB : ∀ q ∈ B, ("p_instr_" ++ ins ++ "_param_" ++ q.2) ≠
      ("p_instr_" ++ ins ++ "_param_" ++ p))
    (hlbl : lookupA lp lbl = some j)
    (hwr : ∀ q ∈ wr, ¬ q.2.isEmpty = true →
      ("p_" ++ q.1 ++ "_read_free") ≠ ("p_instr_" ++ ins ++ "_param_" ++ p)) :
    ∀ {il : List (String × List InstructionLiteralArg)} {pcs pcs' : Consts},
      setInstrs instructions lp i wr il pcs = .ok pcs' →
      (ins, largs) ∈ il →
      (∀ q ∈ il, ("p_instr_" ++ q.1) ≠ ("p_instr_" ++ ins ++ "_param_" ++ p) ∧
        (q ≠ (ins, largs) → ∀ d, lookupA instructions q.1 = some d →
          ∀ pq ∈ q.2.zip d.literal_arg_names,
            ("p_instr_" ++ q.1 ++ "_param_" ++ pq.2) ≠
              ("p_instr_" ++ ins ++ "_param_" ++ p))) →
      InBound pcs ("p_instr_" ++ ins ++ "_param_" ++ p) i →
      colAt pcs' ("p_instr_" ++ ins ++ "_param_" ++ p) i = some ((j : Nat) : F) := by
  intro il
  induction il with
  | nil => intro pcs pcs' _ hmem; cases hmem
  | cons ia rest ih =>
    intro pcs pcs' h hmem hnames hb
    obtain ⟨instr, literal_args⟩ := ia
    simp only [setInstrs] at h
    split at h
    · cases h
    · rename_i pcs1 h1
      split at h
      · cases h
      · rename_i pcs2 h2
        split at h
        · cases h
        · rename_i d h3
          split at h
          · cases h
          · rename_i pcs3 h4
            have hb1 := inBound_of_shape (setReadFreeFlags_stepOK h1).1 hb
            have hb2 := inBound_of_shape (colSet_stepOK h2).1 hb1
            have hb3 := inBound_of_shape (setParams_stepOK h4).1 hb2
            by_cases hq : (instr, literal_args) = (ins, largs)
            · rw [Prod.mk.injEq] at hq
              obtain ⟨hq1, hq2⟩ := hq
              subst hq1
              subst hq2
              rw [hdef] at h3
              cases h3
              rw [hzip] at h4
              have hval3 := setParams_final hlbl hB h4 hb2
              exact setInstrs_keepsVal hdef hzip hB hlbl hwr h
                (fun q hq' => hnames q (List.mem_cons_of_mem _ hq')) hb3 hval3
            · have hmem' : (ins, largs) ∈ rest := by
                cases hmem with
                | head => exact absurd rfl hq
                | tail _ hm => exact hm
              exact ih h hmem' (fun q hq' => hnames q (List.mem_cons_of_mem _ hq')) hb3

theorem translateLine_sets_param {instructions : List (String × Instruction)}
    {lp : List (String × Nat)} {rowIdx : Nat} {line : CodeLine} {acc acc' : Consts × Arms}
    {ins p lbl : String} {j : Nat} {largs : List InstructionLiteralArg}
    {instrDef : Instruction} {A B : List (InstructionLiteralArg × String)}
    (h : translateLine instructions lp (rowIdx, line) acc = .ok acc')
    (hil : (ins, largs) ∈ line.instructions)
    (hdef : lookupA instructions ins = some instrDef)
    (hzip : largs.zip instrDef.literal_arg_names =
      A ++ (InstructionLiteralArg.labelRef lbl, p) :: B)
    (hB : ∀ q ∈ B, ("p_instr_" ++ ins ++ "_param_" ++ q.2) ≠
      ("p_instr_" ++ ins ++ "_param_" ++ p))
    (hlbl : lookupA lp lbl = some j)
    (hwr : ∀ q ∈ line.write_regs, ¬ q.2.isEmpty = true →
      ("p_" ++ q.1 ++ "_read_free") ≠ ("p_instr_" ++ ins ++ "_param_" ++ p))
    (hnames : ∀ q ∈ line.instructions,
      ("p_instr_" ++ q.1) ≠ ("p_instr_" ++ ins ++ "_param_" ++ p) ∧
      (q ≠ (ins, largs) → ∀ d, lookupA instructions q.1 = some d →
        ∀ pq ∈ q.2.zip d.literal_arg_names,
          ("p_instr_" ++ q.1 ++ "_param_" ++ pq.2) ≠
            ("p_instr_" ++ ins ++ "_param_" ++ p)))
    (hb : InBound acc.1 ("p_instr_" ++ ins ++ "_param_" ++ p) rowIdx) :
    colAt acc'.1 ("p_instr_" ++ ins ++ "_param_" ++ p) rowIdx = some ((j : Nat) : F) := by
  simp only [translateLine] at h
  split at h
  · cases h
  · rename_i pcs1 h1
    split at h
    · cases h
    · rename_i acc2 h2
      split at h
      · cases h
      · rename_i pcs3 h3
        cases h
        have hb1 := inBound_of_shape (setWriteRegs_stepOK h1).1 hb
        have hb2 := inBound_of_shape (addValues_stepOK h2).1 hb1
        exact setInstrs_sets_param hdef hzip hB hlbl hwr h3 hil hnames hb2

theorem setParams_ok_resolvable {lp : List (String × Nat)} {i : Nat} {instr : String} :
    ∀ {zl : List (InstructionLiteralArg × String)} {pcs pcs' : Consts},
      setParams lp i instr zl pcs = .ok pcs' →
      ∀ q ∈ zl, ∃ x, resolveArg lp q.1 = .ok x := by
  intro zl
  induction zl with
  | nil => intro pcs pcs' _ q hq; cases hq
  | cons ap rest ih =>
    intro pcs pcs' h q hq
    obtain ⟨arg, param⟩ := ap
    simp only [setParams] at h
    split at h
    · cases h
    · rename_i x hx
      split at h
      · cases h
      · rename_i pcs1 hc
        cases hq with
        | head => exact ⟨x, hx⟩
        | tail _ hq' => exact ih h q hq'

theorem setInstrs_ok_resolvable {instructions : List (String × Instruction)}
    {lp : List (String × Nat)} {i : Nat} {wr : List (String × List String)} :
    ∀ {il : List (String × List InstructionLiteralArg)} {pcs pcs' : Consts},
      setInstrs instructions lp i wr il pcs = .ok pcs' →
      ∀ q ∈ il, ∃ instrDef, lookupA instructions q.1 = some instrDef ∧
        ∀ pq ∈ q.2.zip instrDef.literal_arg_names, ∃ x, resolveArg lp pq.1 = .ok x := by
  intro il
  induction il with
  | nil => intro pcs pcs' _ q hq; cases hq
  | cons ia rest ih =>
    intro pcs pcs' h q hq
    obtain ⟨instr, literal_args⟩ := ia
    simp only [setInstrs] at h
    split at h
    · cases h
    · rename_i pcs1 h1
      split at h
      · cases h
      · rename_i pcs2 h2
        split at h
        · cases h
        · rename_i instrDef h3
          split at h
          · cases h
          · rename_i pcs3 h4
            cases hq with
            | head => exact ⟨instrDef, h3, setParams_ok_resolvable h4⟩
            | tail _ hq' => exact ih h q hq'

theorem translateLines_ok_resolvable {instructions : List (String × Instruction)}
    {lp : List (String × Nat)} :
    ∀ {pairs : List (Nat × CodeLine)} {acc res : Consts × Arms},
      translateLines instructions lp pairs acc = .ok res →
      ∀ rowIdx line, (rowIdx, line) ∈ pairs →
      ∀ q ∈ line.instructions, ∃ instrDef, lookupA instructions q.1 = some instrDef ∧
        ∀ pq ∈ q.2.zip instrDef.literal_arg_names, ∃ x, resolveArg lp pq.1 = .ok x := by
  intro pairs
  induction pairs with
  | nil => intro acc res _ rowIdx line hmem; cases hmem
  | cons il rest ih =>
    intro acc res h rowIdx line hmem
    obtain ⟨j0, line0⟩ := il
    simp only [translateLines] at h
    cases hc : translateLine instructions lp (j0, line0) acc with
    | error e => rw [hc] at h; cases h
    | ok acc1 =>
      rw [hc] at h
      cases hmem with
      | head =>
        simp only [translateLine] at hc
        split at hc
        · cases hc
        · rename_i pcs1 h1
          split at hc
          · cases hc
          · rename_i acc2 h2
            split at hc
            · cases hc
            · rename_i pcs3 h3
              exact setInstrs_ok_resolvable h3
      | tail _ hmem' => exact ih h rowIdx line hmem'

theorem resolveArg_label_isSome {lp : List (String × Nat)} {lbl : String} {x : F}
    (h : resolveArg lp (.labelRef lbl) = .ok x) : (lookupA lp lbl).isSome := by
  simp only [resolveArg] at h
  cases hl : lookupA lp lbl with
  | none => rw [hl] at h; cases h
  | some j => rfl



/-- C7: the label→row-index table is built once over all code lines and a successful
build maps every label to exactly the zero-based index of the code line carrying it;
a repeated label name fails the build with the duplicate-label error; the
materialized value of a Label literal parameter of any instruction fired on a row
(including rows merged from a batch that fire several instructions) equals the
looked-up row index, provided the row's other flag, parameter and read-free column
names do not collide with that parameter's column; and a successful materialization
resolves every referenced label in the table, so a label no code line carries makes
materialization fail. -/
theorem label_positions_resolution (lines : List CodeLine) :
    (∀ m, computeLabelPositions lines = .ok m →
      ∀ lbl j, lookupA m lbl = some j ↔
        ∃ line, lines.get? j = some line ∧ line.label = some lbl) ∧
    (∀ i j li lj lbl, i ≠ j → lines.get? i = some li → li.label = some lbl →
      lines.get? j = some lj → lj.label = some lbl →
      ∃ msg, computeLabelPositions lines = .error msg) ∧
    (∀ (m : List (String × Nat)) (instructions : List (String × Instruction))
      (pcs0 : Consts) (arms0 : Arms) (res : Consts × Arms) (i : Nat) (line : CodeLine)
      (ins p lbl : String) (largs : List InstructionLiteralArg) (instrDef : Instruction)
      (A B : List (InstructionLiteralArg × String)) (j : Nat),
      computeLabelPositions lines = .ok m →
      translateLines instructions m (enumFrom 0 lines) (pcs0, arms0) = .ok res →
      lines.get? i = some line →
      (ins, largs) ∈ line.instructions →
      lookupA instructions ins = some instrDef →
      largs.zip instrDef.literal_arg_names =
        A ++ (InstructionLiteralArg.labelRef lbl, p) :: B →
      (∀ q ∈ B, ("p_instr_" ++ ins ++ "_param_" ++ q.2) ≠
        ("p_instr_" ++ ins ++ "_param_" ++ p)) →
      (∀ q ∈ line.write_regs, ¬ q.2.isEmpty = true →
        ("p_" ++ q.1 ++ "_read_free") ≠ ("p_instr_" ++ ins ++ "_param_" ++ p)) →
      (∀ q ∈ line.instructions,
        ("p_instr_" ++ q.1) ≠ ("p_instr_" ++ ins ++ "_param_" ++ p) ∧
        (q ≠ (ins, largs) → ∀ d, lookupA instructions q.1 = some d →
          ∀ pq ∈ q.2.zip d.literal_arg_names,
            ("p_instr_" ++ q.1 ++ "_param_" ++ pq.2) ≠
              ("p_instr_" ++ ins ++ "_param_" ++ p))) →
      lookupA m lbl = some j →
      InBound pcs0 ("p_instr_" ++ ins ++ "_param_" ++ p) i →
      colAt res.1 ("p_instr_" ++ ins ++ "_param_" ++ p) i = some ((j : Nat) : F)) ∧
    (∀ (lp : List (String × Nat)) (instructions : List (String × Instruction))
      (pairs : List (Nat × CodeLine)) (acc res : Consts × Arms),
      translateLines instructions lp pairs acc = .ok res →
      ∀ rowIdx line, (rowIdx, line) ∈ pairs →
      ∀ ins largs, (ins, largs) ∈ line.instructions →
      ∀ instrDef, lookupA instructions ins = some instrDef →
      ∀ lbl p, (InstructionLiteralArg.labelRef lbl, p) ∈
        largs.zip instrDef.literal_arg_names →
      (lookupA lp lbl).isSome) := by
  refine ⟨?_, ?_, ?_, ?_⟩
  · intro m h
    exact label_positions_characterize h
  · intro i j li lj lbl hij hi hli hj hlj
    cases hres : computeLabelPositions lines with
    | error e => exact ⟨e, rfl⟩
    | ok m =>
      have hchar := label_positions_characterize hres
      have h1 : lookupA m lbl = some i := (hchar lbl i).2 ⟨li, hi, hli⟩
      have h2 : lookupA m lbl = some j := (hchar lbl j).2 ⟨lj, hj, hlj⟩
      rw [h1] at h2
      exact absurd (Option.some.inj h2) hij
  · intro m instructions pcs0 arms0 res i line ins p lbl largs instrDef A B j
      hclp hrun hget hil hdef hzip hB hwr hnames hlbl hb
    have h := translateLines_row_property
      (P := fun l => (ins, largs) ∈ l.instructions ∧
        (∀ q ∈ l.write_regs, ¬ q.2.isEmpty = true →
          ("p_" ++ q.1 ++ "_read_free") ≠ ("p_instr_" ++ ins ++ "_param_" ++ p)) ∧
        (∀ q ∈ l.instructions,
          ("p_instr_" ++ q.1) ≠ ("p_instr_" ++ ins ++ "_param_" ++ p) ∧
          (q ≠ (ins, largs) → ∀ d, lookupA instructions q.1 = some d →
            ∀ pq ∈ q.2.zip d.literal_arg_names,
              ("p_instr_" ++ q.1 ++ "_param_" ++ pq.2) ≠
                ("p_instr_" ++ ins ++ "_param_" ++ p))))
      (fun rowIdx l acc acc' hline hPl hbl =>
        translateLine_sets_param hline hPl.1 hdef hzip hB hlbl hPl.2.1 hPl.2.2 hbl)
      lines 0 (pcs0, arms0) res i line hrun hget ⟨hil, hwr, hnames⟩
      (by rw [Nat.zero_add]; exact hb)
    rw [Nat.zero_add] at h
    exact h
  · intro lp instructions pairs acc res hrun rowIdx line hmem ins largs hins
      instrDef hdef lbl p hpq
    obtain ⟨instrDef', hdef', hres⟩ :=
      translateLines_ok_resolvable hrun rowIdx line hmem (ins, largs) hins
    rw [hdef] at hdef'
    cases hdef'
    obtain ⟨x, hx⟩ := hres (InstructionLiteralArg.labelRef lbl, p) hpq
    exact resolveArg_label_isSome hx

/-- Code lines of the C7 witness: a label-only line "loop" at row 0 and a merged
batch row at row 1 that fires two instructions, the second of which references the
label. -/
def c7Lines : List CodeLine :=
  [⟨[], [], some "loop", []⟩,
   ⟨[], [], none, [("inc", []), ("jmp", [.labelRef "loop"])]⟩]

/-- Instruction map of the C7 witness. -/
def c7Instrs : List (String × Instruction) :=
  [("inc", ⟨[], []⟩), ("jmp", ⟨[.literal "t" .label], []⟩)]

/-- Initial program columns of the C7 witness. -/
def c7Pcs0 : Consts := initConsts ["p_instr_inc", "p_instr_jmp", "p_instr_jmp_param_t"] 2

/-- Witness for C7 at a concrete two-row program: "loop" maps to row 0 and the
materialized parameter value of the second instruction fired on row 1 is 0. -/
theorem label_positions_resolution_witness :
    (lookupA [("loop", 0)] "loop" = some 0 ↔
      ∃ line, c7Lines.get? 0 = some line ∧ line.label = some "loop") ∧
    ∃ res, translateLines c7Instrs [("loop", 0)] (enumFrom 0 c7Lines) (c7Pcs0, []) = .ok res ∧
      colAt res.1 "p_instr_jmp_param_t" 1 = some ((0 : Nat) : F) := by
  constructor
  · exact (label_positions_resolution c7Lines).1 [("loop", 0)] rfl "loop" 0
  · refine ⟨_, rfl, ?_⟩
    have h := (label_positions_resolution c7Lines).2.2.1 [("loop", 0)] c7Instrs c7Pcs0 []
      _ 1 ⟨[], [], none, [("inc", []), ("jmp", [.labelRef "loop"])]⟩ "jmp" "t" "loop"
      [.labelRef "loop"] ⟨[.literal "t" .label], []⟩ [] [] 0
      rfl rfl rfl (List.mem_cons_of_mem _ (List.Mem.head _)) rfl rfl
      (by intro q hq; cases hq)
      (by intro q hq; cases hq)
      (by
        intro q hq
        cases hq with
        | head =>
          refine ⟨by decide, ?_⟩
          intro hne d hd pq hpq
          simp at hpq
        | tail _ hq2 =>
          cases hq2 with
          | head => exact ⟨by decide, fun hne => absurd rfl hne⟩
          | tail _ hq3 => cases hq3)
      rfl
      ⟨List.replicate 2 0, rfl, by decide⟩
    exact h



/-! ## Instruction declarations and the full converter (`convert`) -/

/-- Embedding of `substitute_string`. -/
def substituteString (input : String) (substitution : List (String × String)) : String :=
  (lookupA substitution input).getD input

mutual

/-- Embedding of `substitute`: renames literal-parameter placeholders to their
allocated column names. `FreeInput` and the leaf variants are cloned unchanged. -/
def substitute (substitution : List (String × String)) : Expr → Expr
  | .polyRef r => .polyRef { r with name := substituteString r.name substitution }
  | .binaryOperation l op r =>
      buildBinaryExpr (substitute substitution l) op (substitute substitution r)
  | .unaryOperation op e => buildUnaryExpr op (substitute substitution e)
  | .functionCall name args => .functionCall name (substituteList substitution args)
  | .tuple items => .tuple (substituteList substitution items)
  | .matchExpr scrutinee arms =>
      .matchExpr (substitute substitution scrutinee) (substituteArms substitution arms)
  | .constant c => .constant c
  | .publicRef p => .publicRef p
  | .num n => .num n
  | .str s0 => .str s0
  | .freeInput e => .freeInput e

/-- Embedding of `substitute_vec`. -/
def substituteList (substitution : List (String × String)) : List Expr → List Expr
  | [] => []
  | e :: es => substitute substitution e :: substituteList substitution es

/-- Substitution inside match arms. -/
def substituteArms (substitution : List (String × String)) :
    List (Option Expr × Expr) → List (Option Expr × Expr)
  | [] => []
  | (n, e) :: rest => (n, substitute substitution e) :: substituteArms substitution rest

end

/-- Embedding of `substitute_selected_exprs`. -/
def substituteSelectedExprs (input : SelectedExprs) (substitution : List (String × String)) :
    SelectedExprs :=
  { selector := input.selector.map (substitute substitution)
    expressions := substituteList substitution input.expressions }

/-- Embedding of `extract_update`: splits `next(reg) - rhs` into the updated
register and its value; anything else is a plain expression. -/
def extract_update (expr : Expr) : Except String (Option String × Expr) :=
  match expr with
  | .binaryOperation left .sub right =>
    match left with
    | .polyRef r =>
      if r.next then
        if r.namespc.isSome then .error "assertion failed: namespace == None"
        else if r.index.isSome then .error "assertion failed: index == None"
        else .ok (some r.name, right)
      else .ok (none, buildBinaryExpr (.polyRef r) .sub right)
    | _ => .ok (none, buildBinaryExpr left .sub right)
  | _ => .ok (none, expr)

/-- Processing of one instruction-body element inside `handle_instruction_def`. -/
def handleBodyElement (conv : Converter) (instruction_flag : String)
    (substitutions : List (String × String)) (start : Nat) :
    InstructionBodyElement → Except String Converter
  | .expression expr =>
    match extract_update (substitute substitutions expr) with
    | .error e => .error e
    | .ok (some var, expr') =>
      match updAt conv.registers var (fun r => { r with
          conditioned_updates := r.conditioned_updates ++
            [(directRef instruction_flag, expr')] }) with
      | none => .error "called Option::unwrap on a None value"
      | some registers' => .ok { conv with registers := registers' }
    | .ok (none, expr') =>
      .ok { conv with pil := conv.pil ++
        [Stmt.polynomialIdentity 0 (buildMul (directRef instruction_flag) expr')] }
  | .plookupIdentity left op right =>
    if left.selector.isSome then
      .error "LHS selector not supported, could and-combine with instruction flag later."
    else
      let left' : SelectedExprs :=
        { selector := some (directRef instruction_flag)
          expressions := substituteList substitutions left.expressions }
      let right' := substituteSelectedExprs right substitutions
      .ok { conv with pil := conv.pil ++
        [match op with
         | .inOp => Stmt.plookupIdentity start left' right'
         | .isOp => Stmt.permutationIdentity start left' right'] }

/-- The body loop of `handle_instruction_def`. -/
def handleBody (instruction_flag : String) (substitutions : List (String × String))
    (start : Nat) : Converter → List InstructionBodyElement → Except String Converter
  | conv, [] => .ok conv
  | conv, e :: rest =>
    match handleBodyElement conv instruction_flag substitutions start e with
    | .error err => .error err
    | .ok conv' => handleBody instruction_flag substitutions start conv' rest

/-- Embedding of `handle_instruction_def`. -/
def handle_instruction_def (conv : Converter) (start : Nat)
    (body : List InstructionBodyElement) (name : String) (params : InstructionParams) :
    Except String Converter :=
  let instruction_flag := "instr_" ++ name
  let conv := createWitnessFixedPair conv start instruction_flag
  match mapME (fun param =>
    match param.ty with
    | some ty =>
      if ty = "label" then .ok (Input.literal param.name .label)
      else if ty = "signed" then .ok (Input.literal param.name .signedConstant)
      else if ty = "unsigned" then .ok (Input.literal param.name .unsignedConstant)
      else .error ("param type must be nothing or label, found `" ++ ty ++ "`")
    | none => .ok (Input.register param.name)) params.inputs.params with
  | .error e => .error e
  | .ok inputs =>
    match mapME (fun param =>
      match param.ty with
      | some _ => .error "output must be a register"
      | none => .ok param.name) ((params.outputs.map (fun o => o.params)).getD []) with
    | .error e => .error e
    | .ok outputs =>
      let instr : Instruction := ⟨inputs, outputs⟩
      let convSubs := instr.literal_arg_names.foldl
        (fun (acc : Converter × List (String × String)) arg_name =>
          let param_col_name := "instr_" ++ name ++ "_param_" ++ arg_name
          (createWitnessFixedPair acc.1 start param_col_name,
           acc.2 ++ [(arg_name, param_col_name)]))
        (conv, [])
      match handleBody instruction_flag convSubs.2 start convSubs.1 body with
      | .error e => .error e
      | .ok conv =>
        .ok { conv with instructions := insertA conv.instructions name instr }

/-- Embedding of `create_constraints_for_assignment_reg`. -/
def create_constraints_for_assignment_reg (conv : Converter) (register : String) :
    Converter :=
  let assign_const := register ++ "_const"
  let conv := createWitnessFixedPair conv 0 assign_const
  let read_free := register ++ "_read_free"
  let conv := createWitnessFixedPair conv 0 read_free
  let free_value := register ++ "_free_value"
  let convProducts := conv.regular_registers.foldl
    (fun (acc : Converter × List Expr) name =>
      let read_coefficient := "read_" ++ register ++ "_" ++ name
      (createWitnessFixedPair acc.1 0 read_coefficient,
       acc.2 ++ [buildMul (directRef read_coefficient) (directRef name)]))
    (conv, [])
  let terms := convProducts.2 ++
    [directRef assign_const, buildMul (directRef read_free) (directRef free_value)]
  let assign_constraint :=
    match terms with
    | [] => buildNumber 0
    | t :: ts => ts.foldl buildAdd t
  { convProducts.1 with pil := convProducts.1.pil ++
    [Stmt.polynomialIdentity 0 (buildSub (directRef register) assign_constraint)] }

/-- The assembly flavor (`pilgen::ASMKind`, declared in the crate root, which is not
under the embedded sources; only the `StandAlone` comparison occurs in the
converter). -/
inductive ASMKind where
  | standAlone | embedded
deriving DecidableEq, Repr

/-- A batched assembly file (`parser::batched::BatchedASMFile`); each batch is
modelled as its statement list (`ASMStatementBatch::into_statements`). -/
structure BatchedASMFile where
  declarations : List ASMStatement
  batches : List (List ASMStatement)

/-- Embedding of `u64::is_power_of_two` (Rust standard library, external to the
repository): true exactly when the value is a power of two; `u64` powers of two
have exponents below 64. -/
def isPowerOfTwo (n : Nat) : Bool := (List.range 64).any fun k => n = 2 ^ k

/-- The degree-resolution header of `convert` for the stand-alone kind: consumes a
leading degree declaration (default 1024), asserts it is a power of two, and pushes
the namespace statement. -/
def resolveDegreeHeader (asm_kind : ASMKind) (declarations : List ASMStatement)
    (conv : Converter) : Except String (List ASMStatement × Converter) :=
  match asm_kind with
  | .standAlone =>
    let degreeRest : Nat × List ASMStatement :=
      match declarations with
      | .degree _ deg :: rest => (deg, rest)
      | decls => (1024, decls)
    if ¬ isPowerOfTwo degreeRest.1 then
      .error ("Degree should be a power of two, found " ++ toString degreeRest.1)
    else
      .ok (degreeRest.2, { conv with pil := conv.pil ++
        [Stmt.namespaceDecl 0 "Assembly" (Expr.num ((degreeRest.1 : Nat) : F))] })
  | .embedded => .ok (declarations, conv)

/-- Dispatch over the declaration statements of `convert`. -/
def handleDeclaration (conv : Converter) : ASMStatement → Except String Converter
  | .registerDeclaration start name flags => handle_register_declaration conv flags name start
  | .instructionDeclaration start name params body =>
      handle_instruction_def conv start body name params
  | .inlinePil _start statements => .ok { conv with pil := conv.pil ++ statements }
  | _ => .error "unreachable"

/-- The declaration loop of `convert`. -/
def foldDecls : Converter → List ASMStatement → Except String Converter
  | conv, [] => .ok conv
  | conv, d :: rest =>
    match handleDeclaration conv d with
    | .error e => .error e
    | .ok conv' => foldDecls conv' rest

/-- The batch loop of `convert`. -/
def foldBatches : Converter → List (List ASMStatement) → Except String Converter
  | conv, [] => .ok conv
  | conv, b :: rest =>
    match handle_batch conv b with
    | .error e => .error e
    | .ok conv' => foldBatches conv' rest

/-- Embedding of `convert` on a fresh converter (the crate's entry point runs the
conversion on `ASMPILConverter::default()`). -/
def convert (batched_asm : BatchedASMFile) (asm_kind : ASMKind) :
    Except String (List Stmt) :=
  match resolveDegreeHeader asm_kind batched_asm.declarations Converter.empty with
  | .error e => .error e
  | .ok declsConv =>
    let conv := { declsConv.2 with pil := declsConv.2.pil ++
      [Stmt.polynomialConstantDefinition 0 "first_step"
        (FunctionDef.array ((ArrayExpr.value [buildNumber 1]).padWithZeroes))] }
    match foldDecls conv declsConv.1 with
    | .error e => .error e
    | .ok conv =>
      match foldBatches conv batched_asm.batches with
      | .error e => .error e
      | .ok conv =>
        let conv := conv.assignment_registers.foldl create_constraints_for_assignment_reg conv
        let conv := { conv with
          pil := conv.pil ++ (buildUpdateIdentities conv.registers conv.pc_name) }
        match translate_code_lines conv with
        | .error e => .error e
        | .ok conv =>
          let conv := { conv with pil := conv.pil ++
            [Stmt.plookupIdentity 0
              ⟨none, conv.line_lookup.map fun (x : String × String) => directRef x.1⟩
              ⟨none, conv.line_lookup.map fun (x : String × String) => directRef x.2⟩] }
          .ok conv.pil



/-! ## The emitted statement list only grows (for C10) -/

/-- Converter `b` extends converter `a`'s pil by appending statements. -/
def PilExtends (a b : Converter) : Prop := ∃ l, b.pil = a.pil ++ l

theorem append_extends3 {α : Type} (a x y z : List α) : ∃ l, a ++ x ++ y ++ z = a ++ l :=
  ⟨x ++ y ++ z, by simp⟩

theorem pilExtends_refl (a : Converter) : PilExtends a a := ⟨[], by simp⟩

theorem pilExtends_trans {a b c : Converter}
    (h1 : PilExtends a b) (h2 : PilExtends b c) : PilExtends a c := by
  obtain ⟨l1, h1⟩ := h1
  obtain ⟨l2, h2⟩ := h2
  exact ⟨l1 ++ l2, by rw [h2, h1, List.append_assoc]⟩

theorem cwfp_extends (conv : Converter) (start : Nat) (name : String) :
    PilExtends conv (createWitnessFixedPair conv start name) := ⟨_, rfl⟩

theorem foldlCwfp_extends (start : Nat) {f : String → String} :
    ∀ (regs : List String) (conv : Converter),
      PilExtends conv (regs.foldl (fun c reg => createWitnessFixedPair c start (f reg)) conv) := by
  intro regs
  induction regs with
  | nil => intro conv; exact pilExtends_refl conv
  | cons r rs ih =>
    intro conv
    exact pilExtends_trans (cwfp_extends conv start (f r)) (ih _)

theorem handle_register_declaration_extends {conv conv' : Converter}
    {flags : Option RegisterFlag} {name : String} {start : Nat}
    (h : handle_register_declaration conv flags name start = .ok conv') :
    PilExtends conv conv' := by
  cases flags with
  | none =>
    simp only [handle_register_declaration] at h
    cases h
    refine pilExtends_trans (b := { conv with pil := conv.pil ++
      [Stmt.polynomialIdentity start (buildMul (directRef "first_step") (directRef name))] })
      ⟨_, rfl⟩ ?_
    refine pilExtends_trans (foldlCwfp_extends start
      (f := fun reg => "reg_write_" ++ reg ++ "_" ++ name)
      conv.assignment_registers _) ⟨_, rfl⟩
  | some flag =>
    cases flag with
    | isPC =>
      simp only [handle_register_declaration] at h
      by_cases hpc : conv.pc_name.isSome
      · rw [if_pos hpc] at h; cases h
      · rw [if_neg hpc] at h
        cases h
        exact ⟨_, rfl⟩
    | isAssignment =>
      simp only [handle_register_declaration] at h
      cases h
      exact ⟨_, rfl⟩

theorem handleBodyElement_extends {conv conv' : Converter} {flag : String}
    {subs : List (String × String)} {start : Nat} {e : InstructionBodyElement}
    (h : handleBodyElement conv flag subs start e = .ok conv') :
    PilExtends conv conv' := by
  cases e with
  | expression expr =>
    simp only [handleBodyElement] at h
    split at h
    · cases h
    · rename_i var expr' heq
      cases hu : updAt conv.registers var (fun r => { r with
          conditioned_updates := r.conditioned_updates ++ [(directRef flag, expr')] }) with
      | none => rw [hu] at h; cases h
      | some registers' =>
        rw [hu] at h
        cases h
        exact ⟨[], by simp⟩
    · rename_i expr' heq
      cases h
      exact ⟨_, rfl⟩
  | plookupIdentity left op right =>
    simp only [handleBodyElement] at h
    by_cases hs : left.selector.isSome
    · rw [if_pos hs] at h; cases h
    · rw [if_neg hs] at h
      cases h
      exact ⟨_, rfl⟩

theorem handleBody_extends {flag : String} {subs : List (String × String)} {start : Nat} :
    ∀ {body : List InstructionBodyElement} {conv conv' : Converter},
      handleBody flag subs start conv body = .ok conv' → PilExtends conv conv' := by
  intro body
  induction body with
  | nil => intro conv conv' h; cases h; exact pilExtends_refl _
  | cons e rest ih =>
    intro conv conv' h
    simp only [handleBody] at h
    cases hc : handleBodyElement conv flag subs start e with
    | error err => rw [hc] at h; cases h
    | ok conv1 =>
      rw [hc] at h
      exact pilExtends_trans (handleBodyElement_extends hc) (ih h)

theorem subsFoldl_extends (start : Nat) (name : String) :
    ∀ (names : List String) (acc : Converter × List (String × String)),
      PilExtends acc.1 ((names.foldl
        (fun (acc : Converter × List (String × String)) arg_name =>
          ((createWitnessFixedPair acc.1 start ("instr_" ++ name ++ "_param_" ++ arg_name)),
           acc.2 ++ [(arg_name, "instr_" ++ name ++ "_param_" ++ arg_name)]))
        acc).1) := by
  intro names
  induction names with
  | nil => intro acc; exact pilExtends_refl _
  | cons n ns ih =>
    intro acc
    exact pilExtends_trans (cwfp_extends acc.1 start _) (ih _)

theorem handle_instruction_def_extends {conv conv' : Converter} {start : Nat}
    {body : List InstructionBodyElement} {name : String} {params : InstructionParams}
    (h : handle_instruction_def conv start body name params = .ok conv') :
    PilExtends conv conv' := by
  simp only [handle_instruction_def] at h
  split at h
  · cases h
  · rename_i inputs hinputs
    split at h
    · cases h
    · rename_i outputs houtputs
      split at h
      · cases h
      · rename_i conv2 hbody
        cases h
        refine pilExtends_trans (cwfp_extends conv start ("instr_" ++ name)) ?_
        refine pilExtends_trans (subsFoldl_extends start name
          (Instruction.literal_arg_names ⟨inputs, outputs⟩)
          (createWitnessFixedPair conv start ("instr_" ++ name), [])) ?_
        refine pilExtends_trans (handleBody_extends hbody) ?_
        exact ⟨[], by simp⟩

theorem handleDeclaration_extends {conv conv' : Converter} {d : ASMStatement}
    (h : handleDeclaration conv d = .ok conv') : PilExtends conv conv' := by
  cases d with
  | registerDeclaration start name flags =>
    exact handle_register_declaration_extends h
  | instructionDeclaration start name params body =>
    exact handle_instruction_def_extends h
  | inlinePil start statements =>
    simp only [handleDeclaration] at h
    cases h
    exact ⟨_, rfl⟩
  | degree start d => cases h
  | assignment start w a v => cases h
  | instruction start n a => cases h
  | label start n => cases h

theorem foldDecls_extends :
    ∀ {decls : List ASMStatement} {conv conv' : Converter},
      foldDecls conv decls = .ok conv' → PilExtends conv conv' := by
  intro decls
  induction decls with
  | nil => intro conv conv' h; cases h; exact pilExtends_refl _
  | cons d rest ih =>
    intro conv conv' h
    simp only [foldDecls] at h
    cases hc : handleDeclaration conv d with
    | error e => rw [hc] at h; cases h
    | ok conv1 =>
      rw [hc] at h
      exact pilExtends_trans (handleDeclaration_extends hc) (ih h)

theorem handle_batch_extends {conv conv' : Converter} {batch : List ASMStatement}
    (h : handle_batch conv batch = .ok conv') : PilExtends conv conv' := by
  simp only [handle_batch] at h
  split at h
  · cases h
  · rename_i codeLines hcl
    split at h
    · cases h
      exact pilExtends_refl _
    · rename_i c cs
      split at h
      · cases h
      · rename_i merged hmerged
        cases h
        exact ⟨[], by simp⟩

theorem foldBatches_extends :
    ∀ {batches : List (List ASMStatement)} {conv conv' : Converter},
      foldBatches conv batches = .ok conv' → PilExtends conv conv' := by
  intro batches
  induction batches with
  | nil => intro conv conv' h; cases h; exact pilExtends_refl _
  | cons b rest ih =>
    intro conv conv' h
    simp only [foldBatches] at h
    cases hc : handle_batch conv b with
    | error e => rw [hc] at h; cases h
    | ok conv1 =>
      rw [hc] at h
      exact pilExtends_trans (handle_batch_extends hc) (ih h)

theorem ccFoldl_extends (register : String) :
    ∀ (regs : List String) (acc : Converter × List Expr),
      PilExtends acc.1 ((regs.foldl
        (fun (acc : Converter × List Expr) name =>
          let read_coefficient := "read_" ++ register ++ "_" ++ name
          (createWitnessFixedPair acc.1 0 read_coefficient,
           acc.2 ++ [buildMul (directRef read_coefficient) (directRef name)]))
        acc).1) := by
  intro regs
  induction regs with
  | nil => intro acc; exact pilExtends_refl _
  | cons r rs ih =>
    intro acc
    exact pilExtends_trans (cwfp_extends acc.1 0 _) (ih _)

theorem create_constraints_extends (conv : Converter) (register : String) :
    PilExtends conv (create_constraints_for_assignment_reg conv register) := by
  unfold create_constraints_for_assignment_reg
  refine pilExtends_trans (cwfp_extends conv 0 (register ++ "_const")) ?_
  refine pilExtends_trans (cwfp_extends _ 0 (register ++ "_read_free")) ?_
  refine pilExtends_trans (ccFoldl_extends register _ _) ⟨_, rfl⟩

theorem foldl_create_constraints_extends (regs : List String) :
    ∀ (conv : Converter),
      PilExtends conv (regs.foldl create_constraints_for_assignment_reg conv) := by
  induction regs with
  | nil => intro conv; exact pilExtends_refl _
  | cons r rs ih =>
    intro conv
    exact pilExtends_trans (create_constraints_extends conv r) (ih _)

theorem translate_code_lines_extends {conv conv' : Converter}
    (h : translate_code_lines conv = .ok conv') : PilExtends conv conv' := by
  simp only [translate_code_lines] at h
  split at h
  · cases h
  · rename_i lp hlp
    split at h
    · cases h
    · rename_i acc hacc
      split at h
      · cases h
      · rename_i fv hfv
        cases h
        exact append_extends3 _ _ _ _



theorem isPowerOfTwo_1024 : isPowerOfTwo 1024 = true := by decide

theorem convert_ok_shape {batched : BatchedASMFile} {decls' : List ASMStatement}
    {conv0 : Converter} {stmts : List Stmt}
    (hres : resolveDegreeHeader .standAlone batched.declarations Converter.empty =
      .ok (decls', conv0))
    (hok : convert batched .standAlone = .ok stmts) :
    ∃ L, stmts = conv0.pil ++ L := by
  simp only [convert] at hok
  split at hok
  · cases hok
  · rename_i declsConv hres'
    rw [hres] at hres'
    cases hres'
    split at hok
    · cases hok
    · rename_i conv1 h1
      split at hok
      · cases hok
      · rename_i conv2 h2
        split at hok
        · cases hok
        · rename_i conv5 h5
          cases hok
          have e0 : PilExtends conv0 { conv0 with pil := conv0.pil ++
            [Stmt.polynomialConstantDefinition 0 "first_step"
              (FunctionDef.array ((ArrayExpr.value [buildNumber 1]).padWithZeroes))] } :=
            ⟨_, rfl⟩
          have e1 := foldDecls_extends h1
          have e2 := foldBatches_extends h2
          have e3 := foldl_create_constraints_extends conv2.assignment_registers conv2
          have e4 : PilExtends (conv2.assignment_registers.foldl
              create_constraints_for_assignment_reg conv2)
            { conv2.assignment_registers.foldl create_constraints_for_assignment_reg conv2 with
              pil := (conv2.assignment_registers.foldl
                create_constraints_for_assignment_reg conv2).pil ++
                (buildUpdateIdentities (conv2.assignment_registers.foldl
                  create_constraints_for_assignment_reg conv2).registers
                  (conv2.assignment_registers.foldl
                    create_constraints_for_assignment_reg conv2).pc_name) } := ⟨_, rfl⟩
          have e5 := translate_code_lines_extends h5
          have echain := pilExtends_trans e0 (pilExtends_trans e1 (pilExtends_trans e2
            (pilExtends_trans e3 (pilExtends_trans e4 e5))))
          obtain ⟨L, hL⟩ := echain
          exact ⟨L ++ [Stmt.plookupIdentity 0
            ⟨none, conv5.line_lookup.map fun (x : String × String) => directRef x.1⟩
            ⟨none, conv5.line_lookup.map fun (x : String × String) => directRef x.2⟩],
            by rw [← List.append_assoc, ← hL]⟩

/-- C10: for a stand-alone machine, `convert` accepts an explicit leading degree
declaration only when its value is a power of two (panicking with a message naming
the degree otherwise), uses 1024 when no degree is declared, and emits the namespace
statement with the resolved degree before any other statement. -/
theorem convert_standalone_degree_namespace (batched : BatchedASMFile) :
    (∀ start d rest, batched.declarations = ASMStatement.degree start d :: rest →
      isPowerOfTwo d = false →
      convert batched .standAlone =
        .error ("Degree should be a power of two, found " ++ toString d)) ∧
    (∀ start d rest stmts, batched.declarations = ASMStatement.degree start d :: rest →
      isPowerOfTwo d = true → convert batched .standAlone = .ok stmts →
      stmts.head? = some (Stmt.namespaceDecl 0 "Assembly" (Expr.num ((d : Nat) : F)))) ∧
    ((∀ start d, batched.declarations.head? ≠ some (ASMStatement.degree start d)) →
      ∀ stmts, convert batched .standAlone = .ok stmts →
      stmts.head? = some (Stmt.namespaceDecl 0 "Assembly" (Expr.num ((1024 : Nat) : F)))) := by
  refine ⟨?_, ?_, ?_⟩
  · intro start d rest hdecls hnp
    have hres : resolveDegreeHeader .standAlone batched.declarations Converter.empty =
        .error ("Degree should be a power of two, found " ++ toString d) := by
      rw [hdecls]
      simp [resolveDegreeHeader, hnp]
    simp [convert, hres]
  · intro start d rest stmts hdecls hp hok
    have hres : resolveDegreeHeader .standAlone batched.declarations Converter.empty =
        .ok (rest, { Converter.empty with
          pil := [Stmt.namespaceDecl 0 "Assembly" (Expr.num ((d : Nat) : F))] }) := by
      rw [hdecls]
      simp [resolveDegreeHeader, hp, Converter.empty]
    obtain ⟨L, hL⟩ := convert_ok_shape hres hok
    rw [hL]
    rfl
  · intro hnode stmts hok
    have hres : resolveDegreeHeader .standAlone batched.declarations Converter.empty =
        .ok (batched.declarations, { Converter.empty with
          pil := [Stmt.namespaceDecl 0 "Assembly" (Expr.num ((1024 : Nat) : F))] }) := by
      cases hdecls : batched.declarations with
      | nil => simp [hdecls, resolveDegreeHeader, Converter.empty, isPowerOfTwo_1024]
      | cons dcl rest =>
        cases dcl with
        | degree start d => exact absurd (by rw [hdecls]; rfl) (hnode start d)
        | registerDeclaration start name flags =>
          simp [hdecls, resolveDegreeHeader, Converter.empty, isPowerOfTwo_1024]
        | instructionDeclaration start name params body =>
          simp [hdecls, resolveDegreeHeader, Converter.empty, isPowerOfTwo_1024]
        | inlinePil start statements =>
          simp [hdecls, resolveDegreeHeader, Converter.empty, isPowerOfTwo_1024]
        | assignment start w a v =>
          simp [hdecls, resolveDegreeHeader, Converter.empty, isPowerOfTwo_1024]
        | instruction start n a =>
          simp [hdecls, resolveDegreeHeader, Converter.empty, isPowerOfTwo_1024]
        | label start n =>
          simp [hdecls, resolveDegreeHeader, Converter.empty, isPowerOfTwo_1024]
    obtain ⟨L, hL⟩ := convert_ok_shape hres hok
    rw [hL]
    rfl

/-- Witness for C10: a file with a non-power-of-two degree 6 fails with the exact
message, and an empty stand-alone file resolves to 1024 with the namespace first. -/
theorem convert_standalone_degree_namespace_witness :
    convert ⟨[ASMStatement.degree 0 6], []⟩ .standAlone =
      .error "Degree should be a power of two, found 6" ∧
    ∃ stmts, convert ⟨[], []⟩ .standAlone = .ok stmts ∧
      stmts.head? = some (Stmt.namespaceDecl 0 "Assembly" (Expr.num ((1024 : Nat) : F))) := by
  constructor
  · exact (convert_standalone_degree_namespace ⟨[ASMStatement.degree 0 6], []⟩).1
      0 6 [] rfl (by decide)
  · refine ⟨_, rfl, ?_⟩
    exact (convert_standalone_degree_namespace ⟨[], []⟩).2.2
      (by intro start d h; cases h) _ rfl


end Powdr
